import Mathlib

/-!
# vscode-extension-hub-proxy: the gallery routes, embedded and verified

A shallow embedding of `src/routes/gallery.js`, `src/utils/cache.js` and the
service boundary of `src/services/*.js`.

* JavaScript values are the inductive `JsVal`; property reads, truthiness,
  `||`, `?.` and `===` follow the language semantics on that type.
* The upstream registries are oracles (`Services` for the two clients, a
  function from URLs to `HttpResult` for downloads): the handlers are functions
  of the request, the cache contents and what the upstreams answer.
* `utils/normalizer.js` is not part of the sources at hand; its three exports
  are taken as a parameter (`Normalizer`).
* A handler run yields an `Outcome`: the reply, the ordered trace of calls that
  left the handler, and the cache contents afterwards.

Strings are sequences of Unicode scalar values (no lone surrogates) and numbers
are integers printed in plain decimal, which is what `Number.prototype.toString`
and `JSON.stringify` produce for every integer below `10^21` in magnitude.
-/

namespace GalleryProxy

/-! ## JavaScript values -/

/-- A JavaScript value as the routes see it: a parsed JSON document, or
`undefined` where a property is missing. A number is `num n`, the double with
the integer value `n` (every safe integer, `|n| < 2^53`, is one), or
`infinity`, which is what `JSON.parse` makes of a literal beyond the double
range such as `1e999`. Numbers with a fraction are not represented, and
`num 0` stands for the zero of either sign, which `===`, truthiness and
`JSON.stringify` do not tell apart. A string is a string of code points, so
without lone surrogates. An object lists its members in the order in which
they were inserted (for a parsed body: the order on the wire); its keys are
distinct. -/
inductive JsVal where
  | undefined : JsVal
  | null : JsVal
  | bool (b : Bool) : JsVal
  | num (n : Int) : JsVal
  | infinity (negative : Bool) : JsVal
  | str (s : String) : JsVal
  | arr (xs : List JsVal) : JsVal
  | obj (kvs : List (String × JsVal)) : JsVal

namespace JsVal

mutual
/-- Structural equality test on values. -/
def decEq : (a b : JsVal) → Decidable (a = b)
  | undefined, undefined => isTrue rfl
  | null, null => isTrue rfl
  | bool a, bool b =>
    if h : a = b then isTrue (by rw [h]) else isFalse (by intro e; cases e; exact h rfl)
  | num a, num b =>
    if h : a = b then isTrue (by rw [h]) else isFalse (by intro e; cases e; exact h rfl)
  | infinity a, infinity b =>
    if h : a = b then isTrue (by rw [h]) else isFalse (by intro e; cases e; exact h rfl)
  | str a, str b =>
    if h : a = b then isTrue (by rw [h]) else isFalse (by intro e; cases e; exact h rfl)
  | arr xs, arr ys =>
    match decEqList xs ys with
    | isTrue h => isTrue (by rw [h])
    | isFalse h => isFalse (by intro e; cases e; exact h rfl)
  | obj xs, obj ys =>
    match decEqFields xs ys with
    | isTrue h => isTrue (by rw [h])
    | isFalse h => isFalse (by intro e; cases e; exact h rfl)
  | undefined, null => isFalse (by intro e; cases e)
  | undefined, bool _ => isFalse (by intro e; cases e)
  | undefined, num _ => isFalse (by intro e; cases e)
  | undefined, str _ => isFalse (by intro e; cases e)
  | undefined, arr _ => isFalse (by intro e; cases e)
  | undefined, obj _ => isFalse (by intro e; cases e)
  | null, undefined => isFalse (by intro e; cases e)
  | null, bool _ => isFalse (by intro e; cases e)
  | null, num _ => isFalse (by intro e; cases e)
  | null, str _ => isFalse (by intro e; cases e)
  | null, arr _ => isFalse (by intro e; cases e)
  | null, obj _ => isFalse (by intro e; cases e)
  | bool _, undefined => isFalse (by intro e; cases e)
  | bool _, null => isFalse (by intro e; cases e)
  | bool _, num _ => isFalse (by intro e; cases e)
  | bool _, str _ => isFalse (by intro e; cases e)
  | bool _, arr _ => isFalse (by intro e; cases e)
  | bool _, obj _ => isFalse (by intro e; cases e)
  | num _, undefined => isFalse (by intro e; cases e)
  | num _, null => isFalse (by intro e; cases e)
  | num _, bool _ => isFalse (by intro e; cases e)
  | num _, str _ => isFalse (by intro e; cases e)
  | num _, arr _ => isFalse (by intro e; cases e)
  | num _, obj _ => isFalse (by intro e; cases e)
  | str _, undefined => isFalse (by intro e; cases e)
  | str _, null => isFalse (by intro e; cases e)
  | str _, bool _ => isFalse (by intro e; cases e)
  | str _, num _ => isFalse (by intro e; cases e)
  | str _, arr _ => isFalse (by intro e; cases e)
  | str _, obj _ => isFalse (by intro e; cases e)
  | arr _, undefined => isFalse (by intro e; cases e)
  | arr _, null => isFalse (by intro e; cases e)
  | arr _, bool _ => isFalse (by intro e; cases e)
  | arr _, num _ => isFalse (by intro e; cases e)
  | arr _, str _ => isFalse (by intro e; cases e)
  | arr _, obj _ => isFalse (by intro e; cases e)
  | obj _, undefined => isFalse (by intro e; cases e)
  | obj _, null => isFalse (by intro e; cases e)
  | obj _, bool _ => isFalse (by intro e; cases e)
  | obj _, num _ => isFalse (by intro e; cases e)
  | obj _, str _ => isFalse (by intro e; cases e)
  | obj _, arr _ => isFalse (by intro e; cases e)
  | infinity _, undefined => isFalse (by intro e; cases e)
  | undefined, infinity _ => isFalse (by intro e; cases e)
  | infinity _, null => isFalse (by intro e; cases e)
  | null, infinity _ => isFalse (by intro e; cases e)
  | infinity _, bool _ => isFalse (by intro e; cases e)
  | bool _, infinity _ => isFalse (by intro e; cases e)
  | infinity _, num _ => isFalse (by intro e; cases e)
  | num _, infinity _ => isFalse (by intro e; cases e)
  | infinity _, str _ => isFalse (by intro e; cases e)
  | str _, infinity _ => isFalse (by intro e; cases e)
  | infinity _, arr _ => isFalse (by intro e; cases e)
  | arr _, infinity _ => isFalse (by intro e; cases e)
  | infinity _, obj _ => isFalse (by intro e; cases e)
  | obj _, infinity _ => isFalse (by intro e; cases e)
/-- Structural equality test on element lists. -/
def decEqList : (a b : List JsVal) → Decidable (a = b)
  | [], [] => isTrue rfl
  | [], _ :: _ => isFalse (by intro e; cases e)
  | _ :: _, [] => isFalse (by intro e; cases e)
  | x :: xs, y :: ys =>
    match decEq x y, decEqList xs ys with
    | isTrue h, isTrue h2 => isTrue (by rw [h, h2])
    | isFalse h, _ => isFalse (by intro e; cases e; exact h rfl)
    | _, isFalse h => isFalse (by intro e; cases e; exact h rfl)
/-- Structural equality test on member lists. -/
def decEqFields : (a b : List (String × JsVal)) → Decidable (a = b)
  | [], [] => isTrue rfl
  | [], _ :: _ => isFalse (by intro e; cases e)
  | _ :: _, [] => isFalse (by intro e; cases e)
  | (k, x) :: xs, (l, y) :: ys =>
    if hk : k = l then
      match decEq x y, decEqFields xs ys with
      | isTrue h, isTrue h2 => isTrue (by rw [hk, h, h2])
      | isFalse h, _ => isFalse (by intro e; cases e; exact h rfl)
      | _, isFalse h => isFalse (by intro e; cases e; exact h rfl)
    else isFalse (by intro e; cases e; exact hk rfl)
end

instance : DecidableEq JsVal := decEq

/-- The values `undefined` and `null`: reading a property of either throws a
`TypeError`, and `?.` short-circuits on them. -/
def nullish : JsVal → Bool
  | undefined => true
  | null => true
  | _ => false

/-- JavaScript truthiness (`ToBoolean`): `undefined`, `null`, `false`, `0` and
the empty string are falsy, every object and array is truthy. -/
def truthy : JsVal → Bool
  | undefined => false
  | null => false
  | bool b => b
  | num n => decide (n ≠ 0)
  | infinity _ => true
  | str s => decide (s ≠ "")
  | arr _ => true
  | obj _ => true

/-- The operator `a || b`. -/
def orElse (a b : JsVal) : JsVal := if a.truthy then a else b

/-- First member stored under key `k`; the keys of an object are distinct. -/
def lookupField (k : String) : List (String × JsVal) → Option JsVal
  | [] => none
  | (l, v) :: rest => if l = k then some v else lookupField k rest

/-- The read `v.k` for a non-index property name `k` other than `length`, on a
value that is neither `undefined` nor `null`: an own property of an object, and
`undefined` on arrays, strings, numbers and booleans (none of the names read
by the routes is inherited from a built-in prototype). -/
def field (v : JsVal) (k : String) : JsVal :=
  match v with
  | obj kvs => (lookupField k kvs).getD undefined
  | _ => undefined

/-- The read `v[0]` on a value that is neither `undefined` nor `null`. -/
def index0 (v : JsVal) : JsVal :=
  match v with
  | arr xs => xs.head?.getD undefined
  | obj kvs => (lookupField "0" kvs).getD undefined
  | str s => (s.data.head?.map fun c => str (String.singleton c)).getD undefined
  | _ => undefined

end JsVal

open JsVal

/-! ## The response envelope (`wrapSearchResponse`, gallery.js:24-35) -/

/-- The call `extensions.length.toString()`: the length in decimal. -/
def lengthToString (extensions : List JsVal) : String := toString extensions.length

/-- Helper to wrap the response in the required Microsoft Marketplace format. -/
def wrapSearchResponse (extensions : List JsVal) : JsVal :=
  obj [("results", arr [obj [
    ("extensions", arr extensions),
    ("resultMetadata", arr [obj [
      ("metadataType", str "ResultCount"),
      ("metadataValue", str (lengthToString extensions))]])]])]

/-! ## `JSON.stringify` (ECMA-262, SerializeJSONProperty) -/

/-- The double quote, U+0022. -/
def dquote : Char := Char.ofNat 34

/-- The reverse solidus, U+005C. -/
def backslash : Char := Char.ofNat 92

/-- The opening brace, U+007B. -/
def lbrace : Char := Char.ofNat 123

/-- The closing brace, U+007D. -/
def rbrace : Char := Char.ofNat 125

/-- Lower-case hexadecimal digit of a number below sixteen. -/
def hexDigit (n : Nat) : Char :=
  if n < 10 then Char.ofNat (48 + n) else Char.ofNat (87 + n)

/-- One code point of QuoteJSONString: the short escapes of the table, a
`\u00xx` escape for the other control characters, the character itself
otherwise. -/
def quoteChar (c : Char) : List Char :=
  if c.toNat = 34 then [backslash, dquote]
  else if c.toNat = 92 then [backslash, backslash]
  else if c.toNat = 8 then [backslash, 'b']
  else if c.toNat = 9 then [backslash, 't']
  else if c.toNat = 10 then [backslash, 'n']
  else if c.toNat = 12 then [backslash, 'f']
  else if c.toNat = 13 then [backslash, 'r']
  else if c.toNat < 32 then
    [backslash, 'u', '0', '0', hexDigit (c.toNat / 16), hexDigit (c.toNat % 16)]
  else [c]

/-- The escaped code points followed by the closing quote. -/
def quoteChars : List Char → List Char
  | [] => [dquote]
  | c :: cs => quoteChar c ++ quoteChars cs

/-- QuoteJSONString: the string wrapped in double quotes, escaped. -/
def quoteJSONString (s : String) : List Char := dquote :: quoteChars s.data

/-- Number::toString on an integer: decimal digits, with a minus sign on
negative numbers. This is what JavaScript prints for the double with that
integer value as long as the integer is a safe one, `|n| < 2^53`; above `2^53`
not every integer is a double, and from `10^21` on the print is in exponent
form. -/
def numberToString : Int → List Char
  | Int.ofNat m => Nat.toDigits 10 m
  | Int.negSucc m => '-' :: Nat.toDigits 10 (m + 1)

/-- The test `Number.isSafeInteger`, on an integer. -/
def isSafeInteger (n : Int) : Bool :=
  decide (-9007199254740991 ≤ n ∧ n ≤ 9007199254740991)

/-- The value of a string of decimal digits. -/
def decimalValue (digits : List Char) : Nat :=
  digits.foldl (fun acc c => 10 * acc + (c.toNat - 48)) 0

/-- The array index that a property key denotes: the key is the canonical
decimal print of an integer from 0 to `2^32 - 2`. -/
def arrayIndex? (key : String) : Option Nat :=
  if key.data = Nat.toDigits 10 (decimalValue key.data) ∧
      decimalValue key.data ≤ 4294967294 then
    some (decimalValue key.data)
  else none

/-- Whether a member comes no later than another in the order of
OrdinaryOwnPropertyKeys: array indices first, in ascending order, then the
other keys, which keep their insertion order. -/
def placedBefore {α : Type} (member other : String × α) : Bool :=
  match arrayIndex? member.1, arrayIndex? other.1 with
  | some n, some k => decide (n ≤ k)
  | some _, none => true
  | none, some _ => false
  | none, none => true

/-- A member inserted earlier than all of `members`, put in its place among
them. -/
def insertOwn {α : Type} (member : String × α) : List (String × α) → List (String × α)
  | [] => [member]
  | other :: rest =>
    if placedBefore member other then member :: other :: rest
    else other :: insertOwn member rest

/-- The members of an object, given in insertion order, in the order in which
`JSON.stringify` enumerates them (OrdinaryOwnPropertyKeys): members whose key
is an array index first, in ascending order, then the other members in
insertion order. -/
def ownPropertyOrder {α : Type} : List (String × α) → List (String × α)
  | [] => []
  | member :: rest => insertOwn member (ownPropertyOrder rest)

/-- The pieces joined by commas, as SerializeJSONArray and SerializeJSONObject
join their partial results. -/
def joinComma : List (List Char) → List Char
  | [] => []
  | [s] => s
  | s :: t :: rest => s ++ ',' :: joinComma (t :: rest)

/-- The text of one member of SerializeJSONObject: the quoted key, a colon and
the serialized value. -/
def memberText (member : String × List Char) : List Char :=
  quoteJSONString member.1 ++ ':' :: member.2

mutual
/-- SerializeJSONProperty: `none` is the result `undefined`. A number that is
not finite is printed as `null`. -/
def serializeJSONProperty : JsVal → Option (List Char)
  | .undefined => none
  | .null => some ['n', 'u', 'l', 'l']
  | .bool true => some ['t', 'r', 'u', 'e']
  | .bool false => some ['f', 'a', 'l', 's', 'e']
  | .num n => some (numberToString n)
  | .infinity _ => some ['n', 'u', 'l', 'l']
  | .str s => some (quoteJSONString s)
  | .arr xs => some ('[' :: (joinComma (serializeElements xs) ++ [']']))
  | .obj kvs =>
    some (lbrace ::
      (joinComma ((ownPropertyOrder (serializeMembers kvs)).map memberText) ++ [rbrace]))
/-- The elements of an array, an `undefined` element printed as `null`. -/
def serializeElements : List JsVal → List (List Char)
  | [] => []
  | x :: xs => (serializeJSONProperty x).getD ['n', 'u', 'l', 'l'] :: serializeElements xs
/-- The members of an object with their values serialized, in insertion order,
those whose value serializes to `undefined` left out. -/
def serializeMembers : List (String × JsVal) → List (String × List Char)
  | [] => []
  | (k, v) :: rest =>
    match serializeJSONProperty v with
    | none => serializeMembers rest
    | some s => (k, s) :: serializeMembers rest
end

/-- The call `JSON.stringify(v)`; `none` is the result `undefined`. -/
def JSON_stringify (v : JsVal) : Option String :=
  (serializeJSONProperty v).map String.mk

mutual
/-- A plain JSON document: no `undefined` anywhere inside, and every number
finite and a safe integer, so that `numberToString` is what JavaScript prints
for it. The members of an object may be listed in any order. -/
def JsVal.plain : JsVal → Bool
  | .undefined => false
  | .infinity _ => false
  | .num n => isSafeInteger n
  | .arr xs => JsVal.plainList xs
  | .obj kvs => JsVal.plainFields kvs
  | _ => true
/-- Every element is a plain JSON document. -/
def JsVal.plainList : List JsVal → Bool
  | [] => true
  | x :: xs => JsVal.plain x && JsVal.plainList xs
/-- Every member value is a plain JSON document. -/
def JsVal.plainFields : List (String × JsVal) → Bool
  | [] => true
  | (_, v) :: kvs => JsVal.plain v && JsVal.plainFields kvs
end

mutual
/-- A plain JSON value as the program holds it after `JSON.parse`: no
`undefined` inside, every number finite and a safe integer, and the members of
every object listed in own-property order, which is the order in which the
object itself enumerates them. -/
def JsVal.isJson : JsVal → Bool
  | .undefined => false
  | .infinity _ => false
  | .num n => isSafeInteger n
  | .arr xs => JsVal.isJsonList xs
  | .obj kvs => decide (ownPropertyOrder kvs = kvs) && JsVal.isJsonFields kvs
  | _ => true
/-- Every element is a plain JSON value. -/
def JsVal.isJsonList : List JsVal → Bool
  | [] => true
  | x :: xs => JsVal.isJson x && JsVal.isJsonList xs
/-- Every member value is a plain JSON value. -/
def JsVal.isJsonFields : List (String × JsVal) → Bool
  | [] => true
  | (_, v) :: kvs => JsVal.isJson v && JsVal.isJsonFields kvs
end

/-! ## The response cache (`src/utils/cache.js`) -/

/-- The live entries of the `node-cache` store, newest first. Expiry is a
matter of time and is not part of the model: a `Cache` is what the store holds
at the moment a request is handled. -/
abbrev Cache := List (String × JsVal)

/-- Gets a value from the cache: the cached value or `undefined` if not found. -/
def Cache.get (cache : Cache) (key : String) : JsVal :=
  (lookupField key cache).getD undefined

/-- Sets a value in the cache; a later `get` of the key sees the new value. -/
def Cache.set (cache : Cache) (key : String) (value : JsVal) : Cache :=
  (key, value) :: cache

/-- The part of an Express request the routes read. `cacheKey` is the property
that `cacheMiddleware` attaches. -/
structure Request where
  /-- The route path, `req.path`. -/
  path : String
  /-- The parsed body, `req.body`; `undefined` when no body was parsed. -/
  body : JsVal
  /-- The parsed query string, `req.query`. -/
  query : JsVal
  /-- The property `req.cacheKey`, unset until the middleware has run. -/
  cacheKey : Option String
  deriving DecidableEq

/-- A template-literal substitution of the result of `JSON.stringify`. -/
def templateValue (query : Option String) : String := query.getD "undefined"

/-- Generates a cache key from a request object (cache.js:41-46). -/
def generateCacheKey (req : Request) : String :=
  let path := req.path
  let query := JSON_stringify (req.body.orElse req.query)
  path ++ ":" ++ templateValue query

/-! ## Collaborators -/

/-- Provenance of a record. -/
inductive Registry where
  | marketplace : Registry
  | openvsx : Registry
  deriving DecidableEq

/-- Modelled from the spec: the canonical record that `utils/normalizer.js`
(absent from the sources) returns. It carries the identity, the provenance and
`raw`, the payload reshaped to the canonical wire schema, which is an object. -/
structure NormalizedExtension where
  /-- The publisher half of the identity. -/
  publisher : String
  /-- The name half of the identity. -/
  name : String
  /-- The registry the record came from. -/
  source : Registry
  /-- The members of the wire object `raw`. -/
  raw : List (String × JsVal)
  deriving DecidableEq

/-- The property read `ext.raw`. -/
def NormalizedExtension.rawValue (ext : NormalizedExtension) : JsVal := obj ext.raw

/-- The three exports of `utils/normalizer.js` that gallery.js imports, as
parameters. A normalizer answers `none` where the JavaScript returns `null`. -/
structure Normalizer where
  /-- The export `normalizeMarketplaceExtension`. -/
  normalizeMarketplaceExtension : JsVal → Option NormalizedExtension
  /-- The export `normalizeOpenVSXExtension`. -/
  normalizeOpenVSXExtension : JsVal → Option NormalizedExtension
  /-- The export `aggregateAndDeduplicate`. -/
  aggregateAndDeduplicate : List NormalizedExtension → List NormalizedExtension

/-- What the exports of one registry client resolve to. `searchExtensions`
resolves to an array and `getExtensionDetails` to a record or `null`; neither
rejects, each catches the failures of its own upstream call. -/
structure RegistryClient where
  /-- The export `searchExtensions(query)`. -/
  searchExtensions : JsVal → List JsVal
  /-- The export `getExtensionDetails(publisher, name)`. -/
  getExtensionDetails : String → String → JsVal

/-- The two clients that gallery.js requires. -/
structure Services where
  /-- The module `../services/marketplace`. -/
  marketplaceService : RegistryClient
  /-- The module `../services/openvsx`. -/
  openvsxService : RegistryClient

/-- What an upstream does with one request of a client: no answer at all, or
an answer with a status and a parsed body. -/
inductive UpstreamAnswer where
  | unreachable : UpstreamAnswer
  | answered (status : Nat) (data : JsVal) : UpstreamAnswer

/-- Fetches details for a specific extension from the Open VSX Registry
(openvsx.js:29-44), as a function of what the upstream does: axios resolves on
a 2xx status and the body is returned; on a 404, as on any other failure, the
result is `null`. -/
def openvsxGetExtensionDetails (answer : UpstreamAnswer) : JsVal :=
  match answer with
  | .answered status data => if 200 ≤ status ∧ status < 300 then data else null
  | .unreachable => null

/-- A response as axios hands it over in stream mode. -/
structure HttpResponse where
  /-- The status code. -/
  status : Nat
  /-- The response headers, names in lower case. -/
  headers : List (String × String)
  /-- The bytes of the body stream `response.data`. -/
  data : List Nat
  deriving DecidableEq

/-- What an upstream does with one GET: no answer at all (a transport error),
or a response. -/
inductive HttpResult where
  | failed : HttpResult
  | response (r : HttpResponse) : HttpResult
  deriving DecidableEq

/-- A call that leaves a handler, in the order the handler makes them. -/
inductive Call where
  /-- A call of `searchExtensions(query)` on one of the two clients. -/
  | searchExtensions (service : Registry) (query : JsVal) : Call
  /-- A call of `getExtensionDetails(publisher, name)` on one of the two clients. -/
  | getExtensionDetails (service : Registry) (publisher name : String) : Call
  /-- A call of `aggregateAndDeduplicate(allExtensions)`. -/
  | aggregateAndDeduplicate (allExtensions : List NormalizedExtension) : Call
  /-- An axios GET of a download URL of one of the two providers. -/
  | download (provider : Registry) (url : String) : Call
  deriving DecidableEq

/-- What the client gets. -/
inductive Reply where
  /-- The call `res.status(status).json(body)`. -/
  | json (status : Nat) (body : JsVal) : Reply
  /-- Headers set with `res.setHeader` and a body piped into `res`. -/
  | stream (status : Nat) (headers : List (String × String)) (body : List Nat) : Reply
  /-- Headers set with `res.setHeader`, then the call
  `res.status(status).json(body)`. -/
  | jsonAfterHeaders (headers : List (String × String)) (status : Nat) (body : JsVal) : Reply
  /-- An exception left the handler before any reply was sent. -/
  | uncaught : Reply
  /-- The handler passed the request back to `router.handle`. -/
  | redispatch : Reply
  deriving DecidableEq

/-- The observable result of running a route. -/
structure Outcome where
  /-- What the client gets. -/
  reply : Reply
  /-- The calls made, in order. -/
  calls : List Call
  /-- The cache contents afterwards. -/
  cache : Cache
  deriving DecidableEq

/-- The status code of a reply, when there is one. -/
def Reply.status? : Reply → Option Nat
  | .json status _ => some status
  | .stream status _ _ => some status
  | .jsonAfterHeaders _ status _ => some status
  | .uncaught => none
  | .redispatch => none

/-- The object literal with the single member `message`. -/
def messageBody (text : String) : JsVal := obj [("message", str text)]

/-! ## `cacheMiddleware` (gallery.js:10-21) -/

/-- Middleware for caching search results: a truthy cached body is sent at
once, otherwise the key is attached to the request and `next` runs. -/
def cacheMiddleware (cache : Cache) (req : Request) (next : Request → Outcome) : Outcome :=
  let key := generateCacheKey req
  let cachedBody := cache.get key
  if cachedBody.truthy then
    { reply := .json 200 cachedBody, calls := [], cache := cache }
  else
    next { req with cacheKey := some key }

/-- The statement `if (req.cacheKey) cache.set(req.cacheKey, finalResponse)`. -/
def storeResponse (cache : Cache) (req : Request) (finalResponse : JsVal) : Cache :=
  match req.cacheKey with
  | some key => if key ≠ "" then cache.set key finalResponse else cache
  | none => cache

/-! ## Reading the filter criteria (gallery.js:43-44, 92-93) -/

/-- The expression `req.body.filters?.[0]?.criteria || []`; `none` is the
`TypeError` of reading `filters` off a missing body. -/
def criteriaOf (body : JsVal) : Option JsVal :=
  if body.nullish then none
  else
    let filters := body.field "filters"
    let first := if filters.nullish then undefined else filters.index0
    let criteria := if first.nullish then undefined else first.field "criteria"
    some (criteria.orElse (arr []))

/-- The loop of `Array.prototype.find` with the callback
`c => c.filterType === t`: the first match, `undefined` when there is none,
and `none` for the `TypeError` of reading `filterType` off `null`. -/
def findByFilterType (t : Int) : List JsVal → Option JsVal
  | [] => some undefined
  | c :: rest =>
    if c.nullish then none
    else if c.field "filterType" = num t then some c
    else findByFilterType t rest

/-- The call `criteria.find(c => c.filterType === t)`. Only an array has a
method `find`: on any other truthy value the call is a `TypeError`. -/
def findCriterion (criteria : JsVal) (t : Int) : Option JsVal :=
  match criteria with
  | arr cs => findByFilterType t cs
  | _ => none

/-- The search text of a body,
`criteria.find(c => c.filterType === 10)?.value || ''`. -/
def searchQueryOf (body : JsVal) : Option JsVal :=
  match criteriaOf body with
  | none => none
  | some criteria =>
    match findCriterion criteria 10 with
    | none => none
    | some found =>
      some ((if found.nullish then undefined else found.field "value").orElse (str ""))

/-! ## POST /gallery/search (gallery.js:41-84) -/

/-- The handler of the unified search endpoint, as it runs after the
middleware. The two lines that read the criteria stand before the `try`, so a
`TypeError` there leaves the handler uncaught. Inside the `try` nothing throws:
the clients resolve to arrays and the normalizer returns an entry or `null`, so
the `catch` of line 80 is not reached. -/
def searchHandler (N : Normalizer) (S : Services) (cache : Cache) (req : Request) : Outcome :=
  match searchQueryOf req.body with
  | none => { reply := .uncaught, calls := [], cache := cache }
  | some searchQuery =>
    if !searchQuery.truthy then
      { reply := .json 400 (messageBody "Missing search query"), calls := [], cache := cache }
    else
      -- 1. Fetch results in parallel
      let marketplaceResults := S.marketplaceService.searchExtensions searchQuery
      let openvsxResults := S.openvsxService.searchExtensions searchQuery
      -- 2. Normalize and flatten results
      let normalizedMarketplace :=
        (marketplaceResults.map N.normalizeMarketplaceExtension).reduceOption
      let normalizedOpenVSX :=
        (openvsxResults.map N.normalizeOpenVSXExtension).reduceOption
      -- 3. Aggregate, deduplicate, and prioritize
      let allExtensions := normalizedMarketplace ++ normalizedOpenVSX
      let finalExtensions := N.aggregateAndDeduplicate allExtensions
      -- 4. Wrap and send response
      let finalResponse := wrapSearchResponse (finalExtensions.map NormalizedExtension.rawValue)
      -- 5. Cache the result
      { reply := .json 200 finalResponse,
        calls := [Call.searchExtensions .marketplace searchQuery,
          Call.searchExtensions .openvsx searchQuery,
          Call.aggregateAndDeduplicate allExtensions],
        cache := storeResponse cache req finalResponse }

/-- The route `router.post('/search', cacheMiddleware, handler)`. -/
def postSearch (N : Normalizer) (S : Services) (cache : Cache) (req : Request) : Outcome :=
  cacheMiddleware cache req (searchHandler N S cache)

/-! ## POST /gallery/extensionquery (gallery.js:90-143) -/

/-- The call `s.split(sep)` for a one-character separator, on code points. -/
def splitOn (sep : Char) : List Char → List (List Char)
  | [] => [[]]
  | c :: cs =>
    if c = sep then [] :: splitOn sep cs
    else
      match splitOn sep cs with
      | [] => [[c]]
      | part :: parts => (c :: part) :: parts

/-- Truthiness of an array slot holding a string: a missing slot
(`undefined`) and the empty string are falsy. -/
def truthyPart : Option (List Char) → Bool
  | none => false
  | some part => decide (part ≠ [])

/-- Steps 3 and 4 of the detail route, from the check `if (!extension)` on. -/
def finishDetail (cache : Cache) (req : Request) (extension : JsVal) (calls : List Call) :
    Outcome :=
  if !extension.truthy then
    { reply := .json 404 (messageBody "Extension not found"), calls := calls, cache := cache }
  else
    let finalResponse := wrapSearchResponse [extension]
    { reply := .json 200 finalResponse, calls := calls,
      cache := storeResponse cache req finalResponse }

/-- The `try` block of the detail route. Reading `raw` off the `null` that the
normalizer returns for a record it cannot normalize throws; the `catch`
answers 500. -/
def detailFetch (N : Normalizer) (S : Services) (cache : Cache) (req : Request)
    (publisher name : String) : Outcome :=
  -- 1. Try Microsoft Marketplace first (prioritization)
  let extension := S.marketplaceService.getExtensionDetails publisher name
  if !extension.truthy then
    -- 2. Fallback to Open VSX
    let openvsxExt := S.openvsxService.getExtensionDetails publisher name
    let calls := [Call.getExtensionDetails .marketplace publisher name,
      Call.getExtensionDetails .openvsx publisher name]
    if openvsxExt.truthy then
      match N.normalizeOpenVSXExtension openvsxExt with
      | none =>
        { reply := .json 500 (messageBody "Internal Server Error during detail fetch"),
          calls := calls, cache := cache }
      | some normalized => finishDetail cache req normalized.rawValue calls
    else finishDetail cache req extension calls
  else finishDetail cache req extension [Call.getExtensionDetails .marketplace publisher name]

/-- How lines 92-110 of the detail route read the identity off a body. -/
inductive Identity where
  /-- A `TypeError` was thrown; these lines stand before the `try`. -/
  | threw : Identity
  /-- No criterion with `filterType` 7. -/
  | absent : Identity
  /-- The check `!publisher || !name` failed. -/
  | invalid : Identity
  /-- Both parts are non-empty strings. -/
  | valid (publisher name : String) : Identity
  deriving DecidableEq

/-- Lines 92-110: find the criterion with `filterType` 7, split its value on
the dot, take the first two parts. -/
def identityOf (body : JsVal) : Identity :=
  match criteriaOf body with
  | none => .threw
  | some criteria =>
    match findCriterion criteria 7 with
    | none => .threw
    | some extensionNameCriteria =>
      if !extensionNameCriteria.truthy then .absent
      else
        match extensionNameCriteria.field "value" with
        | str value =>
          let parts := splitOn '.' value.data
          let publisher := parts[0]?
          let name := parts[1]?
          if !truthyPart publisher || !truthyPart name then .invalid
          else .valid (String.mk (publisher.getD [])) (String.mk (name.getD []))
        | _ =>
          -- `value.split` is not callable
          .threw

/-- The handler of the detail endpoint, as it runs after the middleware. -/
def extensionQueryHandler (N : Normalizer) (S : Services) (cache : Cache) (req : Request) :
    Outcome :=
  match identityOf req.body with
  | .threw => { reply := .uncaught, calls := [], cache := cache }
  | .absent => { reply := .redispatch, calls := [], cache := cache }
  | .invalid =>
    { reply := .json 400 (messageBody "Invalid extension name format"),
      calls := [], cache := cache }
  | .valid publisher name => detailFetch N S cache req publisher name

/-- The route `router.post('/extensionquery', cacheMiddleware, handler)`. -/
def postExtensionQuery (N : Normalizer) (S : Services) (cache : Cache) (req : Request) :
    Outcome :=
  cacheMiddleware cache req (extensionQueryHandler N S cache)

/-! ## GET /gallery/download/:publisher/:name/:version (gallery.js:149-215) -/

/-- Gets the download URL for a specific VSIX file (marketplace.js:100-110). -/
def marketplaceGetDownloadUrl (publisher name version : String) : String :=
  "https://marketplace.visualstudio.com/_apis/public/gallery/publishers/" ++ publisher ++
    "/vsextensions/" ++ name ++ "/" ++ version ++ "/vspackage"

/-- The constant `OPENVSX_URL` of openvsx.js. -/
def OPENVSX_URL : String := "https://open-vsx.org/api"

/-- Gets the download URL for a specific VSIX file (openvsx.js:53-62); the
built-in `encodeURIComponent` is a parameter. -/
def openvsxGetDownloadUrl (encodeURIComponent : String → String)
    (publisher name version : String) : String :=
  OPENVSX_URL ++ "/" ++ encodeURIComponent publisher ++ "/" ++ encodeURIComponent name ++ "/" ++
    encodeURIComponent version ++ "/file/" ++ encodeURIComponent name ++ "-" ++
    encodeURIComponent version ++ ".vsix"

/-- The option `validateStatus: (status) => status >= 200 && status < 400`. -/
def validateStatus (status : Nat) : Bool := decide (status ≥ 200) && decide (status < 400)

/-- The axios call of the download route, with `maxRedirects: 0` (a redirect is
handed over, not followed): `none` is a rejected promise, on a transport error
or a status that `validateStatus` refuses. -/
def axiosStream (http : String → HttpResult) (url : String) : Option HttpResponse :=
  match http url with
  | .failed => none
  | .response r => if validateStatus r.status then some r else none

/-- The read `response.headers[name]`. -/
def HttpResponse.header (response : HttpResponse) (name : String) : Option String :=
  (response.headers.find? fun h => decide (h.1 = name)).map fun h => h.2

/-- Truthiness of a header read: a missing header and an empty one are falsy. -/
def truthyHeader : Option String → Bool
  | none => false
  | some value => decide (value ≠ "")

/-- Whether `res.setHeader` takes a header value: Node throws
`ERR_INVALID_CHAR` on a value with a character that matches
`/[^\t\x20-\x7e\x80-\xff]/`, that is a control character other than the tab,
or a character outside Latin-1. -/
def validHeaderValue (value : String) : Bool :=
  value.data.all fun c =>
    decide (c.toNat = 9) || (decide (32 ≤ c.toNat) && decide (c.toNat ≤ 126)) ||
      (decide (128 ≤ c.toNat) && decide (c.toNat ≤ 255))

/-- The headers that step 3 hands to `res.setHeader`, in the order of the
calls (gallery.js:199-203). -/
def proxyHeaders (name version : String) (response : HttpResponse) : List (String × String) :=
  [("Content-Type",
      if truthyHeader (response.header "content-type")
      then (response.header "content-type").getD "" else "application/octet-stream"),
   ("Content-Disposition", "attachment; filename=\"" ++ name ++ "-" ++ version ++ ".vsix\"")] ++
  (if truthyHeader (response.header "content-length")
   then [("Content-Length", (response.header "content-length").getD "")] else [])

/-- The calls of `res.setHeader`, one after the other: the headers recorded
when Node takes every value, and otherwise the exception of the first call
that Node refuses, with the headers recorded before it. -/
def setHeaders : List (String × String) → Except (List (String × String)) (List (String × String))
  | [] => .ok []
  | header :: rest =>
    if validHeaderValue header.2 then
      match setHeaders rest with
      | .ok recorded => .ok (header :: recorded)
      | .error recorded => .error (header :: recorded)
    else .error []

/-- Step 3, proxy the stream; an exception of `res.setHeader` is the `error`
result. The status of the outbound response is never set, so it stays at 200;
`response.data` is the stream object and is truthy whenever there is a
response. -/
def proxyStream (name version : String) (response : Option HttpResponse) :
    Except (List (String × String)) Reply :=
  match response with
  | some r =>
    match setHeaders (proxyHeaders name version r) with
    | .ok recorded => .ok (.stream 200 recorded r.data)
    | .error recorded => .error recorded
  | none => .ok (.json 404 (messageBody "VSIX file not found"))

/-- The `catch` of the outer `try` of the route (gallery.js:211-214): an
exception of step 3 is answered with 500, on the response that already has the
headers recorded before the exception. -/
def catchDownload (cache : Cache) (calls : List Call)
    (step : Except (List (String × String)) Reply) : Outcome :=
  match step with
  | .ok reply => { reply := reply, calls := calls, cache := cache }
  | .error recorded =>
    { reply := .jsonAfterHeaders recorded 500
        (messageBody "Internal Server Error during VSIX download"),
      calls := calls, cache := cache }

/-- The test `!response || response.status >= 400`. -/
def needsFallback : Option HttpResponse → Bool
  | none => true
  | some r => decide (r.status ≥ 400)

/-- The download route. It never reads or writes the cache. The two axios
calls have their own `catch`; building the two URLs does not throw, so what is
left to the outer `catch` is step 3. -/
def getDownload (encodeURIComponent : String → String) (http : String → HttpResult)
    (cache : Cache) (publisher name version : String) : Outcome :=
  -- 1. Try Microsoft Marketplace first
  let downloadUrl := marketplaceGetDownloadUrl publisher name version
  let response := axiosStream http downloadUrl
  -- 2. Fallback to Open VSX if Marketplace failed
  if needsFallback response then
    let fallbackUrl := openvsxGetDownloadUrl encodeURIComponent publisher name version
    let calls := [Call.download .marketplace downloadUrl, Call.download .openvsx fallbackUrl]
    match axiosStream http fallbackUrl with
    | none =>
      { reply := .json 404 (messageBody "VSIX file not found in any registry"),
        calls := calls, cache := cache }
    | some r => catchDownload cache calls (proxyStream name version (some r))
  else
    catchDownload cache [Call.download .marketplace downloadUrl]
      (proxyStream name version response)

/-! ## The normalizer, after the specification

`utils/normalizer.js` is not among the sources. The theorems below hold for
every `Normalizer`; the definitions of this section give one concrete instance
to run the routes on. -/

/-- Modelled from the spec: `normalizeMarketplace` of section 4.1, whose source
`utils/normalizer.js` is missing. The upstream already uses the canonical
schema, so the record itself is the wire form; the normalization fails if
publisher or name or version list is absent. -/
def specNormalizeMarketplace (raw : JsVal) : Option NormalizedExtension :=
  match raw, (raw.field "publisher").field "publisherName", raw.field "extensionName",
    raw.field "versions" with
  | obj kvs, str publisher, str name, arr _ =>
    some { publisher := publisher, name := name, source := .marketplace, raw := kvs }
  | _, _, _, _ => none

/-- Modelled from the spec: `normalizeOpenVSX` of section 4.1, whose source
`utils/normalizer.js` is missing. It maps namespace to publisher, the single
latest-version fields to a one-element version array and the download count to
a statistics entry, and synthesizes the wire form with every field present; a
record missing a mandatory field yields the failure value. -/
def specNormalizeOpenVSX (raw : JsVal) : Option NormalizedExtension :=
  match raw.field "namespace", raw.field "name", raw.field "version" with
  | str publisher, str name, str version =>
    some { publisher := publisher, name := name, source := .openvsx,
           raw := [
             ("publisher", obj [("publisherName", str publisher)]),
             ("extensionName", str name),
             ("displayName", (raw.field "displayName").orElse (str name)),
             ("shortDescription", (raw.field "description").orElse (str "")),
             ("versions", arr [obj [
               ("version", str version),
               ("assetUri", ((raw.field "files").field "download").orElse (str ""))]]),
             ("statistics",
               match raw.field "downloadCount" with
               | num n => arr [obj [("statisticName", str "install"), ("value", num n)]]
               | _ => arr [])] }
  | _, _, _ => none

/-- Modelled from the spec: the identity key of the glossary, the lowercased
string `publisher.name`. -/
def identityKey (ext : NormalizedExtension) : List Char :=
  (ext.publisher.data ++ '.' :: ext.name.data).map Char.toLower

/-- Modelled from the spec: the walk of `aggregate` (section 4.2), keeping the
first occurrence of each identity key. -/
def keepFirst (seen : List (List Char)) : List NormalizedExtension → List NormalizedExtension
  | [] => []
  | ext :: rest =>
    if identityKey ext ∈ seen then keepFirst seen rest
    else ext :: keepFirst (identityKey ext :: seen) rest

/-- Modelled from the spec: the three exports of the missing
`utils/normalizer.js`, as sections 4.1 and 4.2 describe them. -/
def specNormalizer : Normalizer where
  normalizeMarketplaceExtension := specNormalizeMarketplace
  normalizeOpenVSXExtension := specNormalizeOpenVSX
  aggregateAndDeduplicate := keepFirst []

/-! ## Sample upstreams and requests -/

/-- A Marketplace record for `ms.python`. -/
def marketplacePython : JsVal :=
  obj [("publisher", obj [("publisherName", str "ms")]),
       ("extensionName", str "python"),
       ("versions", arr [obj [("version", str "2024.1.0")]])]

/-- An Open VSX record with the given identity. -/
def openvsxRecord (publisher name : String) : JsVal :=
  obj [("namespace", str publisher), ("name", str name), ("version", str "1.0.0"),
       ("files", obj [("download", str "https://open-vsx.org/api/file.vsix")]),
       ("downloadCount", num 7)]

/-- An Open VSX answer that lacks the mandatory field `namespace`. -/
def openvsxIncomplete : JsVal := obj [("name", str "python"), ("version", str "1.0.0")]

/-- Upstreams of the search scenario of section 8: the Marketplace knows
`ms.python`, Open VSX knows `ms.python` and `foo.bar`; Open VSX answers a
detail query for anything but `foo.bar` with 404. -/
def bothRegistries : Services where
  marketplaceService :=
    { searchExtensions := fun _ => [marketplacePython],
      getExtensionDetails := fun publisher name =>
        if publisher = "ms" ∧ name = "python" then marketplacePython else null }
  openvsxService :=
    { searchExtensions := fun _ => [openvsxRecord "ms" "python", openvsxRecord "foo" "bar"],
      getExtensionDetails := fun publisher name =>
        openvsxGetExtensionDetails
          (if publisher = "foo" ∧ name = "bar" then .answered 200 (openvsxRecord "foo" "bar")
           else .answered 404 (obj [("error", str "Extension not found")])) }

/-- Upstreams where only Open VSX answers a detail query, with a record that
lacks a mandatory field. -/
def incompleteOpenvsx : Services where
  marketplaceService :=
    { searchExtensions := fun _ => [],
      getExtensionDetails := fun _ _ => null }
  openvsxService :=
    { searchExtensions := fun _ => [openvsxIncomplete],
      getExtensionDetails := fun _ _ =>
        openvsxGetExtensionDetails (.answered 200 openvsxIncomplete) }

/-- The body `{filters: [{criteria: criteria}]}`. -/
def bodyWithCriteria (criteria : JsVal) : JsVal :=
  obj [("filters", arr [obj [("criteria", criteria)]])]

/-- The criterion `{filterType: t, value: v}`. -/
def criterion (t : Int) (v : JsVal) : JsVal := obj [("filterType", num t), ("value", v)]

/-- A POST request with the given path and body, fresh from the body parser. -/
def postRequest (path : String) (body : JsVal) : Request :=
  { path := path, body := body, query := obj [], cacheKey := none }

/-- A search for the text `python`. -/
def searchPython : Request :=
  postRequest "/search" (bodyWithCriteria (arr [criterion 10 (str "python")]))

/-- A search for the text `java`. -/
def searchJava : Request :=
  postRequest "/search" (bodyWithCriteria (arr [criterion 10 (str "java")]))

/-- A request without a body, with the query string `?q=text`. -/
def queryOnly (text : String) : Request :=
  { path := "/search", body := undefined, query := obj [("q", str text)], cacheKey := none }

/-- A detail query for the identity written `value`. -/
def detailQuery (value : JsVal) : Request :=
  postRequest "/extensionquery" (bodyWithCriteria (arr [criterion 7 value]))

/-- A download oracle where every URL is answered with 200, a content type and a
binary body: both providers have the package. -/
def bothServe (_ : String) : HttpResult :=
  .response { status := 200, headers := [("content-type", "application/vsix")],
              data := [80, 75, 3, 4] }

/-- A download oracle for the scenario of section 8: the Marketplace answers
404, Open VSX answers 200 with a binary body and no content type. -/
def marketplaceDown (url : String) : HttpResult :=
  if url = marketplaceGetDownloadUrl "foo" "bar" "1.0.0" then
    .response { status := 404, headers := [("content-type", "application/json")], data := [110] }
  else
    .response { status := 200, headers := [("content-length", "4")], data := [80, 75, 3, 4] }

/-! ## Vocabulary of the download claims -/

/-- A provider outcome is usable when it is a response with a status in
`[200, 400)`; a transport error and any other status are unusable. -/
def HttpResult.usable : HttpResult → Bool
  | .failed => false
  | .response r => decide (200 ≤ r.status ∧ r.status < 400)

/-- The response of the first usable provider, Marketplace before Open VSX. -/
def firstUsable (marketplace openvsx : HttpResult) : Option HttpResponse :=
  match marketplace, openvsx with
  | .response r, _ => if (HttpResult.response r).usable then some r else
    match openvsx with
    | .response r2 => if (HttpResult.response r2).usable then some r2 else none
    | .failed => none
  | .failed, .response r2 => if (HttpResult.response r2).usable then some r2 else none
  | .failed, .failed => none

/-- What a provider gives for a header: its value, when the header is there
and not empty. -/
def HttpResponse.given (response : HttpResponse) (name : String) : Option String :=
  match response.header name with
  | some value => if value ≠ "" then some value else none
  | none => none

/-- The value of a header that the route has set on the outbound response with
`res.setHeader`. -/
def Reply.header (reply : Reply) (name : String) : Option String :=
  match reply with
  | .stream _ headers _ => (headers.find? fun h => decide (h.1 = name)).map fun h => h.2
  | .jsonAfterHeaders headers _ _ =>
    (headers.find? fun h => decide (h.1 = name)).map fun h => h.2
  | _ => none

/-- Node takes every value of a list of headers. -/
def allAccepted (headers : List (String × String)) : Bool :=
  headers.all fun h => validHeaderValue h.2

/-- The headers recorded before the first value that Node refuses. -/
def recordedBeforeThrow (headers : List (String × String)) : List (String × String) :=
  headers.takeWhile fun h => validHeaderValue h.2

/-- The reply of step 3 for a provider response: the relay, when Node takes
every header value, and the 500 of the outer `catch` otherwise. -/
def relayOr500 (name version : String) (r : HttpResponse) : Reply :=
  if allAccepted (proxyHeaders name version r) then
    .stream 200 (proxyHeaders name version r) r.data
  else
    .jsonAfterHeaders (recordedBeforeThrow (proxyHeaders name version r)) 500
      (messageBody "Internal Server Error during VSIX download")

/-! ## Reading a serialization back (used by the injectivity proofs) -/

/-- A remainder that does not start with a decimal digit. -/
def noDigitHead : List Char → Prop
  | [] => True
  | c :: _ => c.isDigit = false

/-- The value of a lower-case hexadecimal digit. -/
def hexValue (c : Char) : Nat := if c.toNat < 58 then c.toNat - 48 else c.toNat - 87

/-- Reads one escaped code point off the front of a quoted string body;
`none` at the closing quote. -/
def unquoteHead : List Char → Option (Char × List Char)
  | [] => none
  | x :: rest =>
    if x.toNat = 34 then none
    else if x.toNat = 92 then
      match rest with
      | [] => none
      | y :: rest2 =>
        if y = 'u' then
          match rest2 with
          | _ :: _ :: h1 :: h2 :: rest3 => some (Char.ofNat (hexValue h1 * 16 + hexValue h2), rest3)
          | _ => none
        else if y = 'b' then some (Char.ofNat 8, rest2)
        else if y = 't' then some (Char.ofNat 9, rest2)
        else if y = 'n' then some (Char.ofNat 10, rest2)
        else if y = 'f' then some (Char.ofNat 12, rest2)
        else if y = 'r' then some (Char.ofNat 13, rest2)
        else some (y, rest2)
    else some (x, rest)

/-- The serialization of a value, with `null` for `undefined`. -/
def ser (v : JsVal) : List Char := (serializeJSONProperty v).getD ['n', 'u', 'l', 'l']

/-- The texts of the members of an object, in the order given. -/
def memberTexts (kvs : List (String × JsVal)) : List (List Char) :=
  kvs.map fun m => memberText (m.1, ser m.2)

/-- The kind of a value, as its serialization shows it in the first character. -/
def kind : JsVal → Nat
  | .undefined => 1
  | .null => 1
  | .bool true => 2
  | .bool false => 3
  | .num _ => 4
  | .infinity _ => 1
  | .str _ => 5
  | .arr _ => 6
  | .obj _ => 7

/-- The kind that the first character of a serialization announces. -/
def headKind : List Char → Nat
  | [] => 0
  | c :: _ =>
    if c = 'n' then 1
    else if c = 't' then 2
    else if c = 'f' then 3
    else if c = '-' ∨ c.isDigit = true then 4
    else if c.toNat = 34 then 5
    else if c = '[' then 6
    else if c.toNat = 123 then 7
    else 0

/-! ## Vocabulary of the key-ordering claim -/

/-- The order of keys used for the canonical form: lexicographic, by code
point. -/
def keyBefore : List Char → List Char → Bool
  | [], [] => false
  | [], _ :: _ => true
  | _ :: _, [] => false
  | a :: as, b :: bs =>
    if a.toNat < b.toNat then true
    else if b.toNat < a.toNat then false
    else keyBefore as bs

/-- A member put in its place in a list of members that is sorted by key. -/
def insertMember (member : String × JsVal) : List (String × JsVal) → List (String × JsVal)
  | [] => [member]
  | other :: rest =>
    if keyBefore other.1.data member.1.data then other :: insertMember member rest
    else member :: other :: rest

mutual
/-- The canonical form of a JSON value: the members of every object sorted by
key, everything else as it is. It forgets the order in which the keys of an
object were inserted and nothing more. -/
def canonicalize : JsVal → JsVal
  | .arr xs => .arr (canonicalizeElements xs)
  | .obj kvs => .obj (canonicalizeMembers kvs)
  | v => v
/-- The canonical forms of the elements of an array, in order. -/
def canonicalizeElements : List JsVal → List JsVal
  | [] => []
  | x :: xs => canonicalize x :: canonicalizeElements xs
/-- The canonical forms of the members of an object, sorted by key. -/
def canonicalizeMembers : List (String × JsVal) → List (String × JsVal)
  | [] => []
  | (k, v) :: rest => insertMember (k, canonicalize v) (canonicalizeMembers rest)
end

/-- Two values are logically identical when they are equal as JSON values,
differing at most in the order in which object keys were inserted: they have
the same canonical form. -/
def logicallyIdentical (a b : JsVal) : Prop := canonicalize a = canonicalize b

instance (a b : JsVal) : Decidable (logicallyIdentical a b) :=
  inferInstanceAs (Decidable (canonicalize a = canonicalize b))

mutual
/-- The value with the members of every object in own-property order: the
order in which the program enumerates them, whatever the order on the wire. -/
def enumerated : JsVal → JsVal
  | .arr xs => .arr (enumeratedElements xs)
  | .obj kvs => .obj (ownPropertyOrder (enumeratedMembers kvs))
  | v => v
/-- The elements of an array, each with its members in own-property order. -/
def enumeratedElements : List JsVal → List JsVal
  | [] => []
  | x :: xs => enumerated x :: enumeratedElements xs
/-- The members of an object in the order given, each value with its members
in own-property order. -/
def enumeratedMembers : List (String × JsVal) → List (String × JsVal)
  | [] => []
  | (k, v) :: rest => (k, enumerated v) :: enumeratedMembers rest
end

/-- A search whose filter value is the number that `JSON.parse` makes of the
literal `1e999`. -/
def searchInfinity : Request :=
  postRequest "/search" (bodyWithCriteria (arr [criterion 10 (infinity false)]))

/-- A search whose filter value is `null`. -/
def searchNull : Request :=
  postRequest "/search" (bodyWithCriteria (arr [criterion 10 null]))

/-- A request with the empty object as its body, as `body-parser` 1.x leaves
it on a request that has no JSON body, and the query string `?q=text`. -/
def emptyBodyWithQuery (text : String) : Request :=
  { path := "/search", body := obj [], query := obj [("q", str text)], cacheKey := none }

/-- A request with the body `{"b":0,"2":0,"1":0}`, the members in that order on
the wire. -/
def indexKeysLast : Request :=
  postRequest "/search" (obj [("b", num 0), ("2", num 0), ("1", num 0)])

/-- A request with the body `{"1":0,"2":0,"b":0}`. -/
def indexKeysFirst : Request :=
  postRequest "/search" (obj [("1", num 0), ("2", num 0), ("b", num 0)])

/-- The search for `python` as a client sends it that writes `value` before
`filterType` in the criterion. -/
def searchPythonReordered : Request :=
  postRequest "/search"
    (bodyWithCriteria (arr [obj [("value", str "python"), ("filterType", num 10)]]))

/-! # Theorems -/

/-! ## Supporting lemmas -/

theorem reduceOption_map_eq_filterMap {α β : Type} (f : α → Option β) (xs : List α) :
    (xs.map f).reduceOption = xs.filterMap f := by
  induction xs with
  | nil => rfl
  | cons x xs ih =>
    cases h : f x <;> simp [List.reduceOption, List.filterMap_cons, h, List.filterMap_map]

theorem generateCacheKey_ne_empty (req : Request) : generateCacheKey req ≠ "" := by
  intro h
  have hlen := congrArg String.length h
  simp only [generateCacheKey, String.length_append] at hlen
  have hcolon : ":".length = 1 := by decide
  rw [hcolon] at hlen
  simp at hlen

theorem storeResponse_attached (cache : Cache) (req : Request) (value : JsVal) :
    storeResponse cache { req with cacheKey := some (generateCacheKey req) } value =
      cache.set (generateCacheKey req) value := by
  simp [storeResponse, generateCacheKey_ne_empty]

theorem cacheMiddleware_miss (cache : Cache) (req : Request) (next : Request → Outcome)
    (hmiss : (cache.get (generateCacheKey req)).truthy = false) :
    cacheMiddleware cache req next = next { req with cacheKey := some (generateCacheKey req) } := by
  simp [cacheMiddleware, hmiss]

/-! ## The search route -/

/-- The search text that line 44 reads is the value of the first criterion
with `filterType` 10, when the slot holds an array whose entries up to that
criterion are not `null`. -/
theorem findByFilterType_first (before after : List JsVal) (c : JsVal)
    (hbefore : ∀ d ∈ before, d.nullish = false ∧ d.field "filterType" ≠ num 10)
    (hc : c.nullish = false) (h10 : c.field "filterType" = num 10) :
    findByFilterType 10 (before ++ c :: after) = some c := by
  induction before with
  | nil => simp [findByFilterType, hc, h10]
  | cons d rest ih =>
    have hd := hbefore d (List.mem_cons_self _ _)
    have hrest := ih (fun e he => hbefore e (List.mem_cons_of_mem _ he))
    simp [findByFilterType, hd.1, hd.2, hrest]

/-- The search text of a body with a criterion `{filterType: 10, value: q}`,
first of its kind in the slot `filters[0].criteria`, is `q`. -/
theorem searchQueryOf_first_text (body : JsVal) (before after : List JsVal) (c q : JsVal)
    (hslot : criteriaOf body = some (arr (before ++ c :: after)))
    (hbefore : ∀ d ∈ before, d.nullish = false ∧ d.field "filterType" ≠ num 10)
    (hc : c.nullish = false) (h10 : c.field "filterType" = num 10)
    (hvalue : c.field "value" = q) (htext : q.truthy = true) :
    searchQueryOf body = some q := by
  simp [searchQueryOf, hslot, findCriterion, findByFilterType_first before after c hbefore hc h10,
    hc, hvalue, orElse, htext]

/-- C1. In the POST /search route, for every request that is not served from
the cache and whose search text `q` (the value that line 44 reads off the
body) is non-empty, whatever lists the two clients return: the calls are the
Marketplace search, the Open VSX search and then `aggregateAndDeduplicate`,
which is handed exactly the non-null Marketplace normalizations (in order)
followed by the non-null Open VSX normalizations (in order), so that every
Marketplace entry precedes every Open VSX entry; the reply is 200 with the
envelope of the `raw` of each entry the aggregator returns, in the
aggregator's order. -/
theorem search_hands_marketplace_then_openvsx (N : Normalizer) (S : Services) (cache : Cache)
    (req : Request) (q : JsVal)
    (hmiss : (cache.get (generateCacheKey req)).truthy = false)
    (hq : searchQueryOf req.body = some q) (htext : q.truthy = true) :
    (postSearch N S cache req).calls =
      [Call.searchExtensions Registry.marketplace q, Call.searchExtensions Registry.openvsx q,
        Call.aggregateAndDeduplicate ((S.marketplaceService.searchExtensions q).filterMap N.normalizeMarketplaceExtension ++
          (S.openvsxService.searchExtensions q).filterMap N.normalizeOpenVSXExtension)] ∧
    (postSearch N S cache req).reply =
      Reply.json 200 (wrapSearchResponse
        ((N.aggregateAndDeduplicate
          ((S.marketplaceService.searchExtensions q).filterMap N.normalizeMarketplaceExtension ++
            (S.openvsxService.searchExtensions q).filterMap N.normalizeOpenVSXExtension)).map
          fun ext => obj ext.raw)) := by
  rw [postSearch, cacheMiddleware_miss cache req _ hmiss]
  simp only [searchHandler, hq, htext, reduceOption_map_eq_filterMap]
  exact ⟨rfl, rfl⟩

/-- Witness of C1: the search scenario of section 8. -/
theorem search_hands_marketplace_then_openvsx_witness :
    ((Cache.get [] (generateCacheKey searchPython)).truthy = false ∧
      searchQueryOf searchPython.body = some (str "python") ∧
      (str "python").truthy = true) ∧
    (postSearch specNormalizer bothRegistries [] searchPython).calls =
      [Call.searchExtensions Registry.marketplace (str "python"), Call.searchExtensions Registry.openvsx (str "python"),
        Call.aggregateAndDeduplicate
          (((bothRegistries.marketplaceService.searchExtensions (str "python")).filterMap
              specNormalizer.normalizeMarketplaceExtension) ++
            ((bothRegistries.openvsxService.searchExtensions (str "python")).filterMap
              specNormalizer.normalizeOpenVSXExtension))] ∧
    (postSearch specNormalizer bothRegistries [] searchPython).reply =
      Reply.json 200 (wrapSearchResponse
        ((specNormalizer.aggregateAndDeduplicate
          (((bothRegistries.marketplaceService.searchExtensions (str "python")).filterMap
              specNormalizer.normalizeMarketplaceExtension) ++
            ((bothRegistries.openvsxService.searchExtensions (str "python")).filterMap
              specNormalizer.normalizeOpenVSXExtension))).map
          fun ext => obj ext.raw)) :=
  ⟨⟨by decide, by decide, by decide⟩,
    search_hands_marketplace_then_openvsx specNormalizer bothRegistries [] searchPython
      (str "python") (by decide) (by decide) (by decide)⟩

/-- On a list of criteria none of which is `null` or `undefined`, and none of
which has `filterType` 10 together with a truthy value, the search text read
by line 44 is falsy. -/
theorem findByFilterType_no_text (cs : List JsVal)
    (hshape : ∀ c ∈ cs, c.nullish = false)
    (hnone : ∀ c ∈ cs, c.field "filterType" = num 10 → (c.field "value").truthy = false) :
    ∃ found, findByFilterType 10 cs = some found ∧
      ((if found.nullish then undefined else found.field "value").orElse (str "")).truthy
        = false := by
  induction cs with
  | nil => exact ⟨undefined, rfl, by decide⟩
  | cons c rest ih =>
    have hc : c.nullish = false := hshape c (List.mem_cons_self _ _)
    by_cases h10 : c.field "filterType" = num 10
    · refine ⟨c, by simp [findByFilterType, hc, h10], ?_⟩
      have hv := hnone c (List.mem_cons_self _ _) h10
      simp [hc, orElse, hv]
      decide
    · obtain ⟨found, hfound, hfalsy⟩ := ih
        (fun d hd => hshape d (List.mem_cons_of_mem _ hd))
        (fun d hd => hnone d (List.mem_cons_of_mem _ hd))
      exact ⟨found, by simp [findByFilterType, hc, h10, hfound], hfalsy⟩

/-- The part of C2 that the code does meet: when the slot `filters[0].criteria`
is missing or holds an array of criteria, none of them `null` and none with
`filterType` 10 and a value, the route answers 400 with the message
`Missing search query`, calls neither client and leaves the cache alone. -/
theorem search_missing_text_400 (N : Normalizer) (S : Services) (cache : Cache)
    (req : Request) (cs : List JsVal)
    (hmiss : (cache.get (generateCacheKey req)).truthy = false)
    (hslot : criteriaOf req.body = some (arr cs))
    (hshape : ∀ c ∈ cs, c.nullish = false)
    (hnone : ∀ c ∈ cs, c.field "filterType" = num 10 → (c.field "value").truthy = false) :
    postSearch N S cache req =
      { reply := Reply.json 400 (messageBody "Missing search query"), calls := [],
        cache := cache } := by
  obtain ⟨found, hfound, hfalsy⟩ := findByFilterType_no_text cs hshape hnone
  rw [postSearch, cacheMiddleware_miss cache req _ hmiss]
  simp [searchHandler, searchQueryOf, hslot, findCriterion, hfound, hfalsy]

/-- The same, at a body with no filters at all. -/
theorem search_missing_text_400_witness :
    postSearch specNormalizer bothRegistries [] (postRequest "/search" (obj [])) =
      { reply := Reply.json 400 (messageBody "Missing search query"), calls := [],
        cache := [] } :=
  search_missing_text_400 specNormalizer bothRegistries [] (postRequest "/search" (obj [])) []
    (by decide) (by decide) (by simp) (by simp)

/-- C2, the failing input. The body `{filters: [{criteria: [null]}]}` has no
criterion with `filterType` 10 carrying a value, yet the route does not answer
400: the callback of `find` reads `filterType` off `null`, the `TypeError` is
thrown before the `try`, and no reply is sent by the handler. The same happens
when the slot holds a truthy value that is not an array. No client is called. -/
theorem search_null_criterion_escapes :
    postSearch specNormalizer bothRegistries [] (postRequest "/search" (bodyWithCriteria (arr [null])))
      = { reply := Reply.uncaught, calls := [], cache := [] } ∧
    postSearch specNormalizer bothRegistries []
        (postRequest "/search" (bodyWithCriteria (obj [("filterType", num 7)])))
      = { reply := Reply.uncaught, calls := [], cache := [] } := by
  decide

/-! ## The detail route -/

theorem truthy_obj (kvs : List (String × JsVal)) : (obj kvs).truthy = true := rfl

/-- After a cache miss the detail route is its handler, run on the request
with the cache key attached; the identity is read off the same body. -/
theorem postExtensionQuery_miss (N : Normalizer) (S : Services) (cache : Cache) (req : Request)
    (publisher name : String)
    (hmiss : (cache.get (generateCacheKey req)).truthy = false)
    (hid : identityOf req.body = Identity.valid publisher name) :
    postExtensionQuery N S cache req =
      detailFetch N S cache { req with cacheKey := some (generateCacheKey req) }
        publisher name := by
  rw [postExtensionQuery, cacheMiddleware_miss cache req _ hmiss]
  simp [extensionQueryHandler, hid]

/-- C3. In the POST /extensionquery route, for every request not served from
the cache whose identity `(publisher, name)` is valid and for which the
Marketplace client returns a record `e` (a truthy value): the only call made is
the Marketplace detail call, so the Open VSX client is never invoked, and the
reply is 200 with the envelope of exactly `[e]`, `e` itself unchanged. -/
theorem detail_marketplace_hit_passthrough (N : Normalizer) (S : Services) (cache : Cache)
    (req : Request) (publisher name : String)
    (hmiss : (cache.get (generateCacheKey req)).truthy = false)
    (hid : identityOf req.body = Identity.valid publisher name)
    (hhit : (S.marketplaceService.getExtensionDetails publisher name).truthy = true) :
    (postExtensionQuery N S cache req).calls = [Call.getExtensionDetails Registry.marketplace publisher name] ∧
    (∀ p n, Call.getExtensionDetails Registry.openvsx p n ∉ (postExtensionQuery N S cache req).calls) ∧
    (postExtensionQuery N S cache req).reply =
      Reply.json 200 (wrapSearchResponse [S.marketplaceService.getExtensionDetails publisher name]) ∧
    (((wrapSearchResponse [S.marketplaceService.getExtensionDetails publisher name]).field "results").index0.field
      "extensions") = arr [S.marketplaceService.getExtensionDetails publisher name] := by
  rw [postExtensionQuery_miss N S cache req publisher name hmiss hid]
  simp [detailFetch, finishDetail, hhit, wrapSearchResponse, field, index0, lookupField]

/-- Witness of C3: the identity `ms.python`, known to the Marketplace. -/
theorem detail_marketplace_hit_passthrough_witness :
    ((Cache.get [] (generateCacheKey (detailQuery (str "ms.python")))).truthy = false ∧
      identityOf (detailQuery (str "ms.python")).body = Identity.valid "ms" "python" ∧
      (bothRegistries.marketplaceService.getExtensionDetails "ms" "python").truthy = true) ∧
    (postExtensionQuery specNormalizer bothRegistries [] (detailQuery (str "ms.python"))).calls
      = [Call.getExtensionDetails Registry.marketplace "ms" "python"] ∧
    (∀ p n, Call.getExtensionDetails Registry.openvsx p n ∉
      (postExtensionQuery specNormalizer bothRegistries [] (detailQuery (str "ms.python"))).calls) ∧
    (postExtensionQuery specNormalizer bothRegistries [] (detailQuery (str "ms.python"))).reply =
      Reply.json 200 (wrapSearchResponse [bothRegistries.marketplaceService.getExtensionDetails "ms" "python"]) ∧
    (((wrapSearchResponse [bothRegistries.marketplaceService.getExtensionDetails "ms" "python"]).field
      "results").index0.field "extensions") = arr [bothRegistries.marketplaceService.getExtensionDetails "ms" "python"] :=
  ⟨⟨by decide, by decide, by decide⟩,
    detail_marketplace_hit_passthrough specNormalizer bothRegistries []
      (detailQuery (str "ms.python")) "ms" "python" (by decide) (by decide) (by decide)⟩

/-- The part of C4 that the code does meet: when the Marketplace reports no
match, Open VSX returns a record `r` and the normalizer yields an entry for
`r`, the reply is 200 with an envelope of exactly one extension, the `raw` of
that entry, and `ResultCount` is `1`. -/
theorem detail_openvsx_hit_normalized (N : Normalizer) (S : Services) (cache : Cache)
    (req : Request) (publisher name : String) (ext : NormalizedExtension)
    (hmiss : (cache.get (generateCacheKey req)).truthy = false)
    (hid : identityOf req.body = Identity.valid publisher name)
    (hprimary : (S.marketplaceService.getExtensionDetails publisher name).truthy = false)
    (hhit : (S.openvsxService.getExtensionDetails publisher name).truthy = true)
    (hnorm : N.normalizeOpenVSXExtension (S.openvsxService.getExtensionDetails publisher name) = some ext) :
    (postExtensionQuery N S cache req).reply =
      Reply.json 200 (obj [("results", arr [obj [
        ("extensions", arr [obj ext.raw]),
        ("resultMetadata", arr [obj [
          ("metadataType", str "ResultCount"), ("metadataValue", str "1")]])]])]) := by
  rw [postExtensionQuery_miss N S cache req publisher name hmiss hid]
  simp [detailFetch, finishDetail, hprimary, hhit, hnorm, NormalizedExtension.rawValue,
    truthy_obj, wrapSearchResponse, lengthToString]
  rfl

/-- The same, at the identity `foo.bar`, known to Open VSX only. -/
theorem detail_openvsx_hit_normalized_witness :
    (postExtensionQuery specNormalizer bothRegistries [] (detailQuery (str "foo.bar"))).reply =
      Reply.json 200 (obj [("results", arr [obj [
        ("extensions", arr [obj [
          ("publisher", obj [("publisherName", str "foo")]),
          ("extensionName", str "bar"),
          ("displayName", str "bar"),
          ("shortDescription", str ""),
          ("versions", arr [obj [("version", str "1.0.0"),
            ("assetUri", str "https://open-vsx.org/api/file.vsix")]]),
          ("statistics", arr [obj [("statisticName", str "install"), ("value", num 7)]])]]),
        ("resultMetadata", arr [obj [
          ("metadataType", str "ResultCount"), ("metadataValue", str "1")]])]])]) :=
  detail_openvsx_hit_normalized specNormalizer bothRegistries [] (detailQuery (str "foo.bar"))
    "foo" "bar" _ (by decide) (by decide) (by decide) (by decide) rfl

/-- C4, the failing input. The Marketplace reports no match for `ms.python`
and Open VSX returns a record without the mandatory field `namespace`, for
which the normalizer returns `null`. The route reads `raw` off that `null`
inside the `try` and answers 500, not 200; both clients were called and
nothing is cached. -/
theorem detail_openvsx_unnormalizable_500 :
    specNormalizer.normalizeOpenVSXExtension (incompleteOpenvsx.openvsxService.getExtensionDetails "ms" "python") = none ∧
    postExtensionQuery specNormalizer incompleteOpenvsx [] (detailQuery (str "ms.python")) =
      { reply := Reply.json 500 (messageBody "Internal Server Error during detail fetch"),
        calls := [Call.getExtensionDetails Registry.marketplace "ms" "python", Call.getExtensionDetails Registry.openvsx "ms" "python"],
        cache := [] } := by
  decide

/-- For every normalizer: a truthy Open VSX record that it cannot normalize
makes the detail route answer 500. -/
theorem detail_openvsx_null_normalization (N : Normalizer) (S : Services) (cache : Cache)
    (req : Request) (publisher name : String)
    (hmiss : (cache.get (generateCacheKey req)).truthy = false)
    (hid : identityOf req.body = Identity.valid publisher name)
    (hprimary : (S.marketplaceService.getExtensionDetails publisher name).truthy = false)
    (hhit : (S.openvsxService.getExtensionDetails publisher name).truthy = true)
    (hnorm : N.normalizeOpenVSXExtension (S.openvsxService.getExtensionDetails publisher name) = none) :
    postExtensionQuery N S cache req =
      { reply := Reply.json 500 (messageBody "Internal Server Error during detail fetch"),
        calls := [Call.getExtensionDetails Registry.marketplace publisher name, Call.getExtensionDetails Registry.openvsx publisher name],
        cache := cache } := by
  rw [postExtensionQuery_miss N S cache req publisher name hmiss hid]
  simp [detailFetch, hprimary, hhit, hnorm]

/-- An Open VSX answer with a status outside 2xx, a 404 among them, and no
answer at all are reported as no match. -/
theorem openvsxGetExtensionDetails_miss (answer : UpstreamAnswer)
    (h : ∀ status data, answer = UpstreamAnswer.answered status data →
      ¬ (200 ≤ status ∧ status < 300)) :
    openvsxGetExtensionDetails answer = null ∧
      (openvsxGetExtensionDetails answer).truthy = false := by
  cases answer with
  | unreachable => exact ⟨rfl, rfl⟩
  | answered status data =>
    have hs := h status data rfl
    simp [openvsxGetExtensionDetails, hs, truthy]

/-- C5. In the POST /extensionquery route, for every request with a valid
identity that is not served from the cache: the reply is 404 with the message
`Extension not found` if and only if both the Marketplace client and the
Open VSX client report no match (return a falsy value); no other reply has
status 404; and in that case the cache is left as it was. -/
theorem detail_not_found_iff_both_miss (N : Normalizer) (S : Services) (cache : Cache)
    (req : Request) (publisher name : String)
    (hmiss : (cache.get (generateCacheKey req)).truthy = false)
    (hid : identityOf req.body = Identity.valid publisher name) :
    ((postExtensionQuery N S cache req).reply =
        Reply.json 404 (messageBody "Extension not found") ↔
      ((S.marketplaceService.getExtensionDetails publisher name).truthy = false ∧
        (S.openvsxService.getExtensionDetails publisher name).truthy = false)) ∧
    ((postExtensionQuery N S cache req).reply.status? = some 404 ↔
      ((S.marketplaceService.getExtensionDetails publisher name).truthy = false ∧
        (S.openvsxService.getExtensionDetails publisher name).truthy = false)) ∧
    (((S.marketplaceService.getExtensionDetails publisher name).truthy = false ∧
        (S.openvsxService.getExtensionDetails publisher name).truthy = false) →
      (postExtensionQuery N S cache req).cache = cache) := by
  rw [postExtensionQuery_miss N S cache req publisher name hmiss hid]
  cases hm : (S.marketplaceService.getExtensionDetails publisher name).truthy <;>
    cases ho : (S.openvsxService.getExtensionDetails publisher name).truthy <;>
    cases hn : N.normalizeOpenVSXExtension (S.openvsxService.getExtensionDetails publisher name) <;>
    simp [detailFetch, finishDetail, hm, ho, hn, NormalizedExtension.rawValue, truthy_obj,
      Reply.status?, messageBody]

/-- Witness of C5: the identity `no.such`, unknown to both registries. -/
theorem detail_not_found_iff_both_miss_witness :
    ((Cache.get [] (generateCacheKey (detailQuery (str "no.such")))).truthy = false ∧
      identityOf (detailQuery (str "no.such")).body = Identity.valid "no" "such") ∧
    ((postExtensionQuery specNormalizer bothRegistries [] (detailQuery (str "no.such"))).reply =
        Reply.json 404 (messageBody "Extension not found") ↔
      ((bothRegistries.marketplaceService.getExtensionDetails "no" "such").truthy = false ∧
        (bothRegistries.openvsxService.getExtensionDetails "no" "such").truthy = false)) ∧
    ((postExtensionQuery specNormalizer bothRegistries []
        (detailQuery (str "no.such"))).reply.status? = some 404 ↔
      ((bothRegistries.marketplaceService.getExtensionDetails "no" "such").truthy = false ∧
        (bothRegistries.openvsxService.getExtensionDetails "no" "such").truthy = false)) ∧
    (((bothRegistries.marketplaceService.getExtensionDetails "no" "such").truthy = false ∧
        (bothRegistries.openvsxService.getExtensionDetails "no" "such").truthy = false) →
      (postExtensionQuery specNormalizer bothRegistries [] (detailQuery (str "no.such"))).cache
        = []) :=
  ⟨⟨by decide, by decide⟩,
    detail_not_found_iff_both_miss specNormalizer bothRegistries [] (detailQuery (str "no.such"))
      "no" "such" (by decide) (by decide)⟩

/-- A string without the separator is a single part. -/
theorem splitOn_of_not_mem (sep : Char) (l : List Char) (h : sep ∉ l) : splitOn sep l = [l] := by
  induction l with
  | nil => rfl
  | cons c cs ih =>
    have hc : c ≠ sep := fun e => h (by rw [e]; exact List.mem_cons_self _ _)
    have hcs : sep ∉ cs := fun hmem => h (List.mem_cons_of_mem _ hmem)
    simp [splitOn, hc, ih hcs]

/-- The first part ends at the first separator. -/
theorem splitOn_append (sep : Char) (l rest : List Char) (h : sep ∉ l) :
    ∃ parts, splitOn sep rest = parts ∧ splitOn sep (l ++ sep :: rest) = l :: parts := by
  refine ⟨splitOn sep rest, rfl, ?_⟩
  induction l with
  | nil => simp [splitOn]
  | cons c cs ih =>
    have hc : c ≠ sep := fun e => h (by rw [e]; exact List.mem_cons_self _ _)
    have hcs : sep ∉ cs := fun hmem => h (List.mem_cons_of_mem _ hmem)
    simp [splitOn, hc, ih hcs]

/-- What lines 106-110 make of a string value: the first two parts of the
split, when both are non-empty; whatever parts follow are dropped. -/
theorem identityOf_detailQuery (value : String) :
    identityOf (detailQuery (str value)).body =
      match splitOn '.' value.data with
      | publisher :: name :: _ =>
        if publisher ≠ [] ∧ name ≠ [] then Identity.valid (String.mk publisher) (String.mk name)
        else Identity.invalid
      | _ => Identity.invalid := by
  have hcrit : criteriaOf (detailQuery (str value)).body =
      some (arr [criterion 7 (str value)]) := rfl
  have hfind : findCriterion (arr [criterion 7 (str value)]) 7 =
      some (criterion 7 (str value)) := rfl
  have hval : (criterion 7 (str value)).field "value" = str value := rfl
  have htruthy : (criterion 7 (str value)).truthy = true := rfl
  simp only [identityOf, hcrit, hfind, hval, htruthy]
  rcases hsplit : splitOn '.' value.data with _ | ⟨publisher, _ | ⟨name, rest⟩⟩
  · simp [truthyPart]
  · simp [truthyPart]
  · by_cases hp : publisher = [] <;> by_cases hn : name = [] <;> simp [truthyPart, hp, hn]

/-- The part of C6 that the code does meet, accepting side: a value that is
exactly `publisher.name`, two non-empty parts without a dot around a single
dot, is a valid identity with these two parts. -/
theorem identityOf_publisher_dot_name (publisher name : List Char)
    (hp : publisher ≠ []) (hn : name ≠ []) (hpd : '.' ∉ publisher) (hnd : '.' ∉ name) :
    identityOf (detailQuery (str (String.mk (publisher ++ '.' :: name)))).body =
      Identity.valid (String.mk publisher) (String.mk name) := by
  rw [identityOf_detailQuery]
  obtain ⟨parts, hparts, hsplit⟩ := splitOn_append '.' publisher name hpd
  rw [splitOn_of_not_mem '.' name hnd] at hparts
  simp only [hsplit, ← hparts]
  simp [hp, hn]

/-- The part of C6 that the code does meet, rejecting side: a string value
without a dot, or with an empty first or second part, is answered 400 and no
registry client is called. -/
theorem detail_malformed_identity_400 (N : Normalizer) (S : Services) (cache : Cache)
    (value : String)
    (hmiss : (cache.get (generateCacheKey (detailQuery (str value)))).truthy = false)
    (hbad : '.' ∉ value.data ∨ (splitOn '.' value.data)[0]? = some [] ∨
      (splitOn '.' value.data)[1]? = some []) :
    postExtensionQuery N S cache (detailQuery (str value)) =
      { reply := Reply.json 400 (messageBody "Invalid extension name format"), calls := [],
        cache := cache } := by
  have hid : identityOf (detailQuery (str value)).body = Identity.invalid := by
    rw [identityOf_detailQuery]
    rcases hbad with h | h | h
    · rw [splitOn_of_not_mem '.' value.data h]
    · rcases hsplit : splitOn '.' value.data with _ | ⟨publisher, _ | ⟨name, rest⟩⟩
      · rfl
      · rfl
      · rw [hsplit] at h
        simp only [List.getElem?_cons_zero, Option.some.injEq] at h
        simp [h]
    · rcases hsplit : splitOn '.' value.data with _ | ⟨publisher, _ | ⟨name, rest⟩⟩
      · rfl
      · rfl
      · rw [hsplit] at h
        simp only [List.getElem?_cons_succ, List.getElem?_cons_zero, Option.some.injEq] at h
        simp [h]
  rw [postExtensionQuery, cacheMiddleware_miss cache _ _ hmiss]
  simp [extensionQueryHandler, hid]

/-- The rejecting side at the values `mspython`, `.python` and `ms.`. -/
theorem detail_malformed_identity_400_witness :
    postExtensionQuery specNormalizer bothRegistries [] (detailQuery (str "mspython")) =
      { reply := Reply.json 400 (messageBody "Invalid extension name format"), calls := [],
        cache := [] } ∧
    postExtensionQuery specNormalizer bothRegistries [] (detailQuery (str ".python")) =
      { reply := Reply.json 400 (messageBody "Invalid extension name format"), calls := [],
        cache := [] } ∧
    postExtensionQuery specNormalizer bothRegistries [] (detailQuery (str "ms.")) =
      { reply := Reply.json 400 (messageBody "Invalid extension name format"), calls := [],
        cache := [] } :=
  ⟨detail_malformed_identity_400 specNormalizer bothRegistries [] "mspython" (by decide)
      (Or.inl (by decide)),
    detail_malformed_identity_400 specNormalizer bothRegistries [] ".python" (by decide)
      (Or.inr (Or.inl (by decide))),
    detail_malformed_identity_400 specNormalizer bothRegistries [] "ms." (by decide)
      (Or.inr (Or.inr (by decide)))⟩

/-- C6, the failing inputs. The value `ms.python.insiders` has two separators,
yet the route does not answer 400: it keeps the first two parts, asks the
Marketplace for `ms.python` and answers 200 with that record. A criterion with
`filterType` 7 and no value does not get a 400 either: `value.split` throws
before the `try` and no reply is sent by the handler. -/
theorem detail_extra_separator_accepted :
    identityOf (detailQuery (str "ms.python.insiders")).body = Identity.valid "ms" "python" ∧
    postExtensionQuery specNormalizer bothRegistries [] (detailQuery (str "ms.python.insiders")) =
      { reply := Reply.json 200 (wrapSearchResponse [marketplacePython]),
        calls := [Call.getExtensionDetails Registry.marketplace "ms" "python"],
        cache := [(generateCacheKey (detailQuery (str "ms.python.insiders")),
          wrapSearchResponse [marketplacePython])] } ∧
    postExtensionQuery specNormalizer bothRegistries [] (detailQuery undefined) =
      { reply := Reply.uncaught, calls := [], cache := [] } := by
  decide

/-! ## The download route -/

theorem validateStatus_eq_usable (r : HttpResponse) :
    validateStatus r.status = (HttpResult.response r).usable := by
  simp only [validateStatus, HttpResult.usable, ge_iff_le, Bool.decide_and]

theorem axiosStream_failed (http : String → HttpResult) (url : String)
    (h : http url = HttpResult.failed) : axiosStream http url = none := by
  simp [axiosStream, h]

theorem axiosStream_usable (http : String → HttpResult) (url : String) (r : HttpResponse)
    (h : http url = HttpResult.response r) (hu : (HttpResult.response r).usable = true) :
    axiosStream http url = some r := by
  simp [axiosStream, h, validateStatus_eq_usable, hu]

theorem axiosStream_unusable (http : String → HttpResult) (url : String) (r : HttpResponse)
    (h : http url = HttpResult.response r) (hu : (HttpResult.response r).usable = false) :
    axiosStream http url = none := by
  simp [axiosStream, h, validateStatus_eq_usable, hu]

theorem needsFallback_usable (r : HttpResponse) (hu : (HttpResult.response r).usable = true) :
    needsFallback (some r) = false := by
  simp only [HttpResult.usable, decide_eq_true_eq] at hu
  have h400 : ¬ r.status ≥ 400 := by omega
  simp [needsFallback, h400]

theorem setHeaders_eq (headers : List (String × String)) :
    setHeaders headers =
      if allAccepted headers then Except.ok headers
      else Except.error (recordedBeforeThrow headers) := by
  induction headers with
  | nil => rfl
  | cons h rest ih =>
    cases hv : validHeaderValue h.2
    · simp [setHeaders, allAccepted, recordedBeforeThrow, hv]
    · cases hr : allAccepted rest
      · have hr2 : (rest.all fun h => validHeaderValue h.2) = false := hr
        rw [setHeaders, ih, hr]
        simp [allAccepted, recordedBeforeThrow, hv, hr2]
      · have hr2 : (rest.all fun h => validHeaderValue h.2) = true := hr
        rw [setHeaders, ih, hr]
        simp [allAccepted, hv, hr2]

/-- Step 3 under the outer `catch`, for a provider response. -/
theorem catchDownload_proxyStream (cache : Cache) (calls : List Call) (name version : String)
    (r : HttpResponse) :
    catchDownload cache calls (proxyStream name version (some r)) =
      { reply := relayOr500 name version r, calls := calls, cache := cache } := by
  cases ha : allAccepted (proxyHeaders name version r) <;>
    simp [catchDownload, proxyStream, setHeaders_eq, relayOr500, ha]

/-- The run of the download route when the Marketplace outcome is usable. -/
theorem getDownload_marketplace (encodeURIComponent : String → String)
    (http : String → HttpResult) (cache : Cache) (publisher name version : String)
    (r : HttpResponse)
    (h : http (marketplaceGetDownloadUrl publisher name version) = HttpResult.response r)
    (hu : (HttpResult.response r).usable = true) :
    getDownload encodeURIComponent http cache publisher name version =
      { reply := relayOr500 name version r,
        calls := [Call.download Registry.marketplace
          (marketplaceGetDownloadUrl publisher name version)],
        cache := cache } := by
  simp [getDownload, axiosStream_usable http _ r h hu, needsFallback_usable r hu,
    catchDownload_proxyStream]

/-- The run of the download route when the Marketplace outcome is unusable. -/
theorem getDownload_fallback (encodeURIComponent : String → String)
    (http : String → HttpResult) (cache : Cache) (publisher name version : String)
    (hu : (http (marketplaceGetDownloadUrl publisher name version)).usable = false) :
    getDownload encodeURIComponent http cache publisher name version =
      { reply :=
          match axiosStream http
              (openvsxGetDownloadUrl encodeURIComponent publisher name version) with
          | some r => relayOr500 name version r
          | none => Reply.json 404 (messageBody "VSIX file not found in any registry"),
        calls :=
          [Call.download Registry.marketplace (marketplaceGetDownloadUrl publisher name version),
            Call.download Registry.openvsx
              (openvsxGetDownloadUrl encodeURIComponent publisher name version)],
        cache := cache } := by
  have hnone : axiosStream http (marketplaceGetDownloadUrl publisher name version) = none := by
    cases hm : http (marketplaceGetDownloadUrl publisher name version) with
    | failed => exact axiosStream_failed http _ hm
    | response r => exact axiosStream_unusable http _ r hm (by rw [← hm]; exact hu)
  simp only [getDownload, hnone, needsFallback, if_true]
  cases axiosStream http (openvsxGetDownloadUrl encodeURIComponent publisher name version) <;>
    simp [catchDownload_proxyStream]

/-- The reply of the download route, by cases on the first usable provider. -/
theorem getDownload_reply (encodeURIComponent : String → String) (http : String → HttpResult)
    (cache : Cache) (publisher name version : String) :
    (getDownload encodeURIComponent http cache publisher name version).reply =
      match firstUsable (http (marketplaceGetDownloadUrl publisher name version))
          (http (openvsxGetDownloadUrl encodeURIComponent publisher name version)) with
      | some r => relayOr500 name version r
      | none => Reply.json 404 (messageBody "VSIX file not found in any registry") := by
  cases hm : http (marketplaceGetDownloadUrl publisher name version) with
  | failed =>
    rw [getDownload_fallback encodeURIComponent http cache publisher name version
      (by rw [hm]; rfl)]
    cases ho : http (openvsxGetDownloadUrl encodeURIComponent publisher name version) with
    | failed => simp [axiosStream_failed http _ ho, firstUsable]
    | response r2 =>
      cases hu2 : (HttpResult.response r2).usable
      · simp [axiosStream_unusable http _ r2 ho hu2, firstUsable, hu2]
      · simp [axiosStream_usable http _ r2 ho hu2, firstUsable, hu2]
  | response r =>
    cases hu : (HttpResult.response r).usable
    · rw [getDownload_fallback encodeURIComponent http cache publisher name version
        (by rw [hm]; exact hu)]
      cases ho : http (openvsxGetDownloadUrl encodeURIComponent publisher name version) with
      | failed => simp [axiosStream_failed http _ ho, firstUsable, hu]
      | response r2 =>
        cases hu2 : (HttpResult.response r2).usable
        · simp [axiosStream_unusable http _ r2 ho hu2, firstUsable, hu, hu2]
        · simp [axiosStream_usable http _ r2 ho hu2, firstUsable, hu, hu2]
    · rw [getDownload_marketplace encodeURIComponent http cache publisher name version r hm hu]
      simp [firstUsable, hu]

theorem usable_failed : HttpResult.failed.usable = false := rfl

/-- The first usable provider is none exactly when both outcomes are unusable. -/
theorem firstUsable_eq_none_iff (marketplace openvsx : HttpResult) :
    firstUsable marketplace openvsx = none ↔
      (marketplace.usable = false ∧ openvsx.usable = false) := by
  cases marketplace with
  | failed =>
    cases openvsx with
    | failed => simp [firstUsable, usable_failed]
    | response r2 =>
      cases hu2 : (HttpResult.response r2).usable <;> simp [firstUsable, hu2, usable_failed]
  | response r =>
    cases hu : (HttpResult.response r).usable
    · cases openvsx with
      | failed => simp [firstUsable, hu, usable_failed]
      | response r2 => cases hu2 : (HttpResult.response r2).usable <;> simp [firstUsable, hu, hu2]
    · cases openvsx <;> simp [firstUsable, hu]

theorem relayOr500_status (name version : String) (r : HttpResponse) :
    (relayOr500 name version r).status? ≠ some 404 := by
  cases ha : allAccepted (proxyHeaders name version r) <;>
    simp [relayOr500, ha, Reply.status?]

/-- C7, the counterexample. The Marketplace has the package and its outcome is
usable, the name in the path is `π`: the second `res.setHeader` of step 3
throws on the file name, which is outside Latin-1, and the outer `catch`
answers 500. The reply is not the relayed response of the first usable
provider, and it is not a 404 either. -/
theorem download_refused_name_500 :
    (bothServe (marketplaceGetDownloadUrl "ms" "π" "1.0.0")).usable = true ∧
    firstUsable (bothServe (marketplaceGetDownloadUrl "ms" "π" "1.0.0"))
      (bothServe (openvsxGetDownloadUrl id "ms" "π" "1.0.0")) =
      some { status := 200, headers := [("content-type", "application/vsix")],
             data := [80, 75, 3, 4] } ∧
    getDownload id bothServe [] "ms" "π" "1.0.0" =
      { reply := Reply.jsonAfterHeaders [("Content-Type", "application/vsix")] 500
          (messageBody "Internal Server Error during VSIX download"),
        calls := [Call.download Registry.marketplace
          (marketplaceGetDownloadUrl "ms" "π" "1.0.0")],
        cache := [] } ∧
    (∀ headers body,
      (getDownload id bothServe [] "ms" "π" "1.0.0").reply ≠ Reply.stream 200 headers body) := by
  refine ⟨by decide, by decide, by decide, fun headers body h => ?_⟩
  have hreply : (getDownload id bothServe [] "ms" "π" "1.0.0").reply =
      Reply.jsonAfterHeaders [("Content-Type", "application/vsix")] 500
        (messageBody "Internal Server Error during VSIX download") := by decide
  rw [hreply] at h
  cases h

/-- C7, as amended. In the GET /download route, with each provider's outcome
either unusable (a transport error, or a status outside `[200, 400)`) or
usable (a response with a status in `[200, 400)`, a redirect included, handed
over as it is): the first call goes to the Marketplace; Open VSX is called if
and only if the Marketplace outcome is unusable; when there is a first usable
provider, the reply streams its body with status 200 and the headers built
from its response, provided that Node takes every one of these header values,
and otherwise it is the 500 of the route's `catch`, on top of the headers
recorded before the refused one; the reply has status 404 if and only if both
outcomes are unusable, and it is then the fixed message of the route, never a
provider's own status or body. -/
theorem download_first_usable_or_500 (encodeURIComponent : String → String)
    (http : String → HttpResult) (cache : Cache) (publisher name version : String) :
    (getDownload encodeURIComponent http cache publisher name version).calls.head? =
      some (Call.download Registry.marketplace
        (marketplaceGetDownloadUrl publisher name version)) ∧
    ((∃ url, Call.download Registry.openvsx url ∈
        (getDownload encodeURIComponent http cache publisher name version).calls) ↔
      (http (marketplaceGetDownloadUrl publisher name version)).usable = false) ∧
    (getDownload encodeURIComponent http cache publisher name version).reply =
      (match firstUsable (http (marketplaceGetDownloadUrl publisher name version))
          (http (openvsxGetDownloadUrl encodeURIComponent publisher name version)) with
        | some r =>
          if allAccepted (proxyHeaders name version r) then
            Reply.stream 200 (proxyHeaders name version r) r.data
          else
            Reply.jsonAfterHeaders (recordedBeforeThrow (proxyHeaders name version r)) 500
              (messageBody "Internal Server Error during VSIX download")
        | none => Reply.json 404 (messageBody "VSIX file not found in any registry")) ∧
    ((getDownload encodeURIComponent http cache publisher name version).reply.status? = some 404 ↔
      ((http (marketplaceGetDownloadUrl publisher name version)).usable = false ∧
        (http (openvsxGetDownloadUrl encodeURIComponent publisher name version)).usable
          = false)) := by
  refine ⟨?_, ?_, getDownload_reply _ _ _ _ _ _, ?_⟩
  · cases hu : (http (marketplaceGetDownloadUrl publisher name version)).usable
    · rw [getDownload_fallback encodeURIComponent http cache publisher name version hu]
      rfl
    · cases hm : http (marketplaceGetDownloadUrl publisher name version) with
      | failed => rw [hm] at hu; cases hu
      | response r =>
        rw [getDownload_marketplace encodeURIComponent http cache publisher name version r hm
          (by rw [← hm]; exact hu)]
        rfl
  · cases hu : (http (marketplaceGetDownloadUrl publisher name version)).usable
    · rw [getDownload_fallback encodeURIComponent http cache publisher name version hu]
      simp
    · cases hm : http (marketplaceGetDownloadUrl publisher name version) with
      | failed => rw [hm] at hu; cases hu
      | response r =>
        rw [getDownload_marketplace encodeURIComponent http cache publisher name version r hm
          (by rw [← hm]; exact hu)]
        simp
  · rw [getDownload_reply, ← firstUsable_eq_none_iff]
    cases hf : firstUsable (http (marketplaceGetDownloadUrl publisher name version))
        (http (openvsxGetDownloadUrl encodeURIComponent publisher name version)) with
    | none => simp [Reply.status?]
    | some r => simpa using relayOr500_status name version r

/-- C8, the counterexample. The Marketplace answers the download of version
`1.0.0-β` with 200, a body and a content length: a successful provider
response. `res.setHeader` throws on the synthesized file name, so the reply is
the 500 of the route's `catch`; it has no Content-Disposition at all, and no
Content-Length although the provider gives one. -/
theorem download_refused_version_no_filename :
    firstUsable (marketplaceDown (marketplaceGetDownloadUrl "foo" "bar" "1.0.0-β"))
      (marketplaceDown (openvsxGetDownloadUrl id "foo" "bar" "1.0.0-β")) =
      some { status := 200, headers := [("content-length", "4")], data := [80, 75, 3, 4] } ∧
    (getDownload id marketplaceDown [] "foo" "bar" "1.0.0-β").reply =
      Reply.jsonAfterHeaders [("Content-Type", "application/octet-stream")] 500
        (messageBody "Internal Server Error during VSIX download") ∧
    (getDownload id marketplaceDown [] "foo" "bar" "1.0.0-β").reply.header
      "Content-Disposition" = none ∧
    HttpResponse.given
      { status := 200, headers := [("content-length", "4")], data := [80, 75, 3, 4] }
      "content-length" = some "4" ∧
    (getDownload id marketplaceDown [] "foo" "bar" "1.0.0-β").reply.header
      "Content-Length" = none := by
  decide

/-- C8, as amended. In the GET /download route, whenever a provider response
`r` is relayed, which is when it is the first usable one and Node takes every
header value built from it and from the path parameters: the outbound
Content-Type is the provider's content-type, and `application/octet-stream`
when the provider gives none; the outbound Content-Length is the provider's
content-length and is set exactly when the provider gives one; and the
outbound Content-Disposition carries the file name `<name>-<version>.vsix`
built from the path parameters. The file name is built in every such case, so
in particular when the provider supplies none. -/
theorem download_outbound_headers (encodeURIComponent : String → String)
    (http : String → HttpResult) (cache : Cache) (publisher name version : String)
    (r : HttpResponse)
    (hfirst : firstUsable (http (marketplaceGetDownloadUrl publisher name version))
      (http (openvsxGetDownloadUrl encodeURIComponent publisher name version)) = some r)
    (haccepted : allAccepted (proxyHeaders name version r) = true) :
    (getDownload encodeURIComponent http cache publisher name version).reply.status? =
      some 200 ∧
    (getDownload encodeURIComponent http cache publisher name version).reply.header
        "Content-Type" = some ((r.given "content-type").getD "application/octet-stream") ∧
    (getDownload encodeURIComponent http cache publisher name version).reply.header
        "Content-Length" = r.given "content-length" ∧
    (getDownload encodeURIComponent http cache publisher name version).reply.header
        "Content-Disposition" =
      some ("attachment; filename=\"" ++ name ++ "-" ++ version ++ ".vsix\"") := by
  rw [getDownload_reply, hfirst]
  simp only [relayOr500, haccepted, if_true]
  have hne1 : ¬ ("Content-Type" = "Content-Length") := by decide
  have hne2 : ¬ ("Content-Disposition" = "Content-Length") := by decide
  have hne3 : ¬ ("Content-Type" = "Content-Disposition") := by decide
  refine ⟨rfl, ?_, ?_, ?_⟩
  · cases hct : r.header "content-type" with
    | none => simp [Reply.header, proxyHeaders, HttpResponse.given, hct, truthyHeader]
    | some v =>
      by_cases hv : v = ""
      · simp [Reply.header, proxyHeaders, HttpResponse.given, hct, truthyHeader, hv]
      · simp [Reply.header, proxyHeaders, HttpResponse.given, hct, truthyHeader, hv]
  · cases hcl : r.header "content-length" with
    | none =>
      simp [Reply.header, proxyHeaders, HttpResponse.given, hcl, truthyHeader, hne1, hne2]
    | some v =>
      by_cases hv : v = ""
      · simp [Reply.header, proxyHeaders, HttpResponse.given, hcl, truthyHeader, hv, hne1, hne2]
      · simp [Reply.header, proxyHeaders, HttpResponse.given, hcl, truthyHeader, hv, hne1, hne2]
  · simp [Reply.header, proxyHeaders, hne3]

/-- Witness of C8 as amended: the download scenario of section 8, where the
Marketplace answers 404 and Open VSX answers 200 with a body and a content
length, and Node takes the three header values. -/
theorem download_outbound_headers_witness :
    (firstUsable (marketplaceDown (marketplaceGetDownloadUrl "foo" "bar" "1.0.0"))
      (marketplaceDown (openvsxGetDownloadUrl id "foo" "bar" "1.0.0")) =
      some { status := 200, headers := [("content-length", "4")], data := [80, 75, 3, 4] } ∧
    allAccepted (proxyHeaders "bar" "1.0.0"
      { status := 200, headers := [("content-length", "4")], data := [80, 75, 3, 4] }) = true) ∧
    (getDownload id marketplaceDown [] "foo" "bar" "1.0.0").reply.status? = some 200 ∧
    (getDownload id marketplaceDown [] "foo" "bar" "1.0.0").reply.header "Content-Type" =
      some ((HttpResponse.given
        { status := 200, headers := [("content-length", "4")], data := [80, 75, 3, 4] }
        "content-type").getD "application/octet-stream") ∧
    (getDownload id marketplaceDown [] "foo" "bar" "1.0.0").reply.header "Content-Length" =
      HttpResponse.given
        { status := 200, headers := [("content-length", "4")], data := [80, 75, 3, 4] }
        "content-length" ∧
    (getDownload id marketplaceDown [] "foo" "bar" "1.0.0").reply.header "Content-Disposition" =
      some ("attachment; filename=\"" ++ "bar" ++ "-" ++ "1.0.0" ++ ".vsix\"") :=
  ⟨⟨by decide, by decide⟩,
    download_outbound_headers id marketplaceDown [] "foo" "bar" "1.0.0"
      { status := 200, headers := [("content-length", "4")], data := [80, 75, 3, 4] }
      (by decide) (by decide)⟩

/-- The download scenario of section 8, run: status 200, the synthesized
filename, and the body of the Open VSX answer byte for byte. -/
theorem download_scenario :
    getDownload id marketplaceDown [] "foo" "bar" "1.0.0" =
      { reply := Reply.stream 200
          [("Content-Type", "application/octet-stream"),
           ("Content-Disposition", "attachment; filename=\"bar-1.0.0.vsix\""),
           ("Content-Length", "4")]
          [80, 75, 3, 4],
        calls := [Call.download Registry.marketplace
            "https://marketplace.visualstudio.com/_apis/public/gallery/publishers/foo/vsextensions/bar/1.0.0/vspackage",
          Call.download Registry.openvsx
            "https://open-vsx.org/api/foo/bar/1.0.0/file/bar-1.0.0.vsix"],
        cache := [] } := by
  decide

/-! ## The envelope -/

/-- C9. For every list `xs` of extensions, `wrapSearchResponse xs` is an
object whose only member is `results`, an array with exactly one entry; that
entry has the members `extensions`, which is `xs` unchanged (same elements,
same order), and `resultMetadata`, an array with exactly one entry whose
`metadataType` is `ResultCount` and whose `metadataValue` is the decimal
string of the length of `xs`. -/
theorem wrapSearchResponse_envelope (xs : List JsVal) :
    ∃ result metadata,
      wrapSearchResponse xs = obj [("results", arr [result])] ∧
      result = obj [("extensions", arr xs), ("resultMetadata", arr [metadata])] ∧
      result.field "extensions" = arr xs ∧
      result.field "resultMetadata" = arr [metadata] ∧
      metadata = obj [("metadataType", str "ResultCount"),
        ("metadataValue", str (Nat.repr xs.length))] ∧
      metadata.field "metadataType" = str "ResultCount" ∧
      metadata.field "metadataValue" = str (Nat.repr xs.length) :=
  ⟨_, _, rfl, rfl, by simp [field, lookupField], by simp [field, lookupField], rfl,
    by simp [field, lookupField], by simp [field, lookupField]; rfl⟩

/-! ## `JSON.stringify` is injective on JSON values -/

theorem digitChar_isDigit (k : Nat) (hk : k < 10) : (Nat.digitChar k).isDigit = true := by
  interval_cases k <;> decide

theorem digitChar_value (k : Nat) (hk : k < 10) : (Nat.digitChar k).toNat - 48 = k := by
  interval_cases k <;> decide

theorem toDigitsCore_append (fuel n : Nat) (acc : List Char) :
    Nat.toDigitsCore 10 fuel n acc = Nat.toDigitsCore 10 fuel n [] ++ acc := by
  induction fuel generalizing n acc with
  | zero => simp [Nat.toDigitsCore]
  | succ fuel ih =>
    simp only [Nat.toDigitsCore]
    split
    · simp
    · rw [ih (n / 10) (Nat.digitChar (n % 10) :: acc), ih (n / 10) [Nat.digitChar (n % 10)]]
      simp

theorem toDigitsCore_isDigit (fuel n : Nat) :
    ∀ c ∈ Nat.toDigitsCore 10 fuel n [], c.isDigit = true := by
  induction fuel generalizing n with
  | zero => simp [Nat.toDigitsCore]
  | succ fuel ih =>
    intro c hc
    simp only [Nat.toDigitsCore] at hc
    split at hc
    · simp only [List.mem_singleton] at hc
      rw [hc]
      exact digitChar_isDigit _ (Nat.mod_lt _ (by decide))
    · rw [toDigitsCore_append] at hc
      rcases List.mem_append.mp hc with h | h
      · exact ih _ c h
      · simp only [List.mem_singleton] at h
        rw [h]
        exact digitChar_isDigit _ (Nat.mod_lt _ (by decide))

theorem toDigitsCore_value (fuel n : Nat) (hfuel : n < fuel) :
    decimalValue (Nat.toDigitsCore 10 fuel n []) = n := by
  induction fuel generalizing n with
  | zero => omega
  | succ fuel ih =>
    simp only [Nat.toDigitsCore]
    split
    · rename_i h0
      simp only [decimalValue, List.foldl]
      rw [digitChar_value _ (Nat.mod_lt _ (by decide))]
      omega
    · rename_i h0
      rw [toDigitsCore_append]
      have hlt : n / 10 < fuel := by omega
      have := ih (n / 10) hlt
      simp only [decimalValue, List.foldl_append, List.foldl] at this ⊢
      rw [this, digitChar_value _ (Nat.mod_lt _ (by decide))]
      omega

theorem toDigits_isDigit (n : Nat) : ∀ c ∈ Nat.toDigits 10 n, c.isDigit = true :=
  toDigitsCore_isDigit _ _

theorem toDigits_value (n : Nat) : decimalValue (Nat.toDigits 10 n) = n :=
  toDigitsCore_value _ _ (Nat.lt_succ_self n)

/-- The decimal digits of a number start with a digit. -/
theorem toDigits_head (n : Nat) :
    ∃ c rest, Nat.toDigits 10 n = c :: rest ∧ c.isDigit = true := by
  cases h : Nat.toDigits 10 n with
  | nil =>
    exfalso
    simp only [Nat.toDigits, Nat.toDigitsCore] at h
    split at h
    · simp at h
    · rw [toDigitsCore_append] at h
      simp at h
  | cons c rest =>
    exact ⟨c, rest, rfl, toDigits_isDigit n c (by rw [h]; exact List.mem_cons_self _ _)⟩

/-- Two runs of digits, each followed by something that does not start with a
digit, are equal as soon as the whole strings are. -/
theorem digits_append_cancel (l1 l2 r1 r2 : List Char)
    (h1 : ∀ c ∈ l1, c.isDigit = true) (h2 : ∀ c ∈ l2, c.isDigit = true)
    (hr1 : noDigitHead r1) (hr2 : noDigitHead r2) (heq : l1 ++ r1 = l2 ++ r2) :
    l1 = l2 ∧ r1 = r2 := by
  induction l1 generalizing l2 with
  | nil =>
    cases l2 with
    | nil => exact ⟨rfl, by simpa using heq⟩
    | cons d l2 =>
      exfalso
      simp only [List.nil_append, List.cons_append] at heq
      rw [heq] at hr1
      have := h2 d (List.mem_cons_self _ _)
      simp [noDigitHead, this] at hr1
  | cons c l1 ih =>
    cases l2 with
    | nil =>
      exfalso
      simp only [List.nil_append, List.cons_append] at heq
      rw [← heq] at hr2
      have := h1 c (List.mem_cons_self _ _)
      simp [noDigitHead, this] at hr2
    | cons d l2 =>
      simp only [List.cons_append, List.cons.injEq] at heq
      obtain ⟨hl, hr⟩ := ih l2 (fun x hx => h1 x (List.mem_cons_of_mem _ hx))
        (fun x hx => h2 x (List.mem_cons_of_mem _ hx)) heq.2
      exact ⟨by rw [heq.1, hl], hr⟩

/-- Number::toString can be read back: equal prints, each followed by
something that does not start with a digit, come from equal numbers. -/
theorem numberToString_cancel (n m : Int) (r1 r2 : List Char)
    (hr1 : noDigitHead r1) (hr2 : noDigitHead r2)
    (heq : numberToString n ++ r1 = numberToString m ++ r2) : n = m ∧ r1 = r2 := by
  cases n with
  | ofNat a =>
    cases m with
    | ofNat b =>
      simp only [numberToString] at heq
      obtain ⟨hd, hr⟩ := digits_append_cancel _ _ r1 r2 (toDigits_isDigit a) (toDigits_isDigit b)
        hr1 hr2 heq
      have := congrArg decimalValue hd
      rw [toDigits_value, toDigits_value] at this
      exact ⟨by rw [this], hr⟩
    | negSucc b =>
      exfalso
      obtain ⟨c, rest, hc, hdig⟩ := toDigits_head a
      simp only [numberToString, hc, List.cons_append, List.cons.injEq] at heq
      rw [heq.1] at hdig
      exact absurd hdig (by decide)
  | negSucc a =>
    cases m with
    | ofNat b =>
      exfalso
      obtain ⟨c, rest, hc, hdig⟩ := toDigits_head b
      simp only [numberToString, hc, List.cons_append, List.cons.injEq] at heq
      rw [← heq.1] at hdig
      exact absurd hdig (by decide)
    | negSucc b =>
      simp only [numberToString, List.cons_append, List.cons.injEq, true_and] at heq
      obtain ⟨hd, hr⟩ := digits_append_cancel _ _ r1 r2 (toDigits_isDigit (a + 1))
        (toDigits_isDigit (b + 1)) hr1 hr2 heq
      have := congrArg decimalValue hd
      rw [toDigits_value, toDigits_value] at this
      have hab : a = b := by omega
      exact ⟨by rw [hab], hr⟩

/-! ### Quoted strings -/

theorem char_eq_of_toNat (c : Char) (k : Nat) (h : c.toNat = k) : c = Char.ofNat k := by
  rw [← h, Char.ofNat_toNat]

/-- One escaped code point can be read back. -/
theorem unquoteHead_quoteChar (c : Char) (rest : List Char) :
    unquoteHead (quoteChar c ++ rest) = some (c, rest) := by
  by_cases hlow : c.toNat < 32
  · have hc := char_eq_of_toNat c c.toNat rfl
    generalize c.toNat = k at hc hlow
    subst hc
    interval_cases k <;> rfl
  · by_cases h34 : c.toNat = 34
    · rw [char_eq_of_toNat c 34 h34]; rfl
    · by_cases h92 : c.toNat = 92
      · rw [char_eq_of_toNat c 92 h92]; rfl
      · have h8 : ¬ c.toNat = 8 := by omega
        have h9 : ¬ c.toNat = 9 := by omega
        have h10 : ¬ c.toNat = 10 := by omega
        have h12 : ¬ c.toNat = 12 := by omega
        have h13 : ¬ c.toNat = 13 := by omega
        simp [quoteChar, unquoteHead, h34, h92, h8, h9, h10, h12, h13, hlow]

/-- A quoted string body can be read back: equal bodies, whatever follows the
closing quote, come from equal strings. -/
theorem quoteChars_cancel (cs1 cs2 r1 r2 : List Char)
    (heq : quoteChars cs1 ++ r1 = quoteChars cs2 ++ r2) : cs1 = cs2 ∧ r1 = r2 := by
  induction cs1 generalizing cs2 with
  | nil =>
    cases cs2 with
    | nil => simpa [quoteChars] using heq
    | cons d cs2 =>
      exfalso
      have h := congrArg unquoteHead heq
      rw [quoteChars, quoteChars, List.append_assoc, unquoteHead_quoteChar] at h
      exact absurd h (by simp [unquoteHead, dquote])
  | cons c cs1 ih =>
    cases cs2 with
    | nil =>
      exfalso
      have h := congrArg unquoteHead heq
      rw [quoteChars, quoteChars, List.append_assoc, unquoteHead_quoteChar] at h
      exact absurd h (by simp [unquoteHead, dquote])
    | cons d cs2 =>
      have h := congrArg unquoteHead heq
      rw [quoteChars, quoteChars, List.append_assoc, List.append_assoc, unquoteHead_quoteChar,
        unquoteHead_quoteChar] at h
      simp only [Option.some.injEq, Prod.mk.injEq] at h
      obtain ⟨hl, hr⟩ := ih cs2 h.2
      exact ⟨by rw [h.1, hl], hr⟩

theorem quoteJSONString_cancel (s1 s2 : String) (r1 r2 : List Char)
    (heq : quoteJSONString s1 ++ r1 = quoteJSONString s2 ++ r2) : s1 = s2 ∧ r1 = r2 := by
  simp only [quoteJSONString, List.cons_append, List.cons.injEq, true_and] at heq
  obtain ⟨hd, hr⟩ := quoteChars_cancel _ _ _ _ heq
  exact ⟨String.ext hd, hr⟩

/-! ### Own-property order -/

theorem placedBefore_of_not {α : Type} (a b : String × α) (h : placedBefore a b = false) :
    placedBefore b a = true := by
  unfold placedBefore at h ⊢
  cases ha : arrayIndex? a.1 <;> cases hb : arrayIndex? b.1 <;> simp only [ha, hb] at h ⊢ <;>
    simp at h ⊢
  omega

theorem insertOwn_map {α β : Type} (g : α → β) (m : String × α) (l : List (String × α)) :
    insertOwn (m.1, g m.2) (l.map fun x => (x.1, g x.2)) =
      (insertOwn m l).map fun x => (x.1, g x.2) := by
  induction l with
  | nil => rfl
  | cons e rest ih =>
    have hp : placedBefore (m.1, g m.2) (e.1, g e.2) = placedBefore m e := rfl
    cases hme : placedBefore m e
    · simp only [List.map_cons, insertOwn, hp, hme, ih]
      simp
    · simp only [List.map_cons, insertOwn, hp, hme]
      simp

/-- The own-property order looks at the keys only. -/
theorem ownPropertyOrder_map {α β : Type} (g : α → β) (l : List (String × α)) :
    ownPropertyOrder (l.map fun x => (x.1, g x.2)) =
      (ownPropertyOrder l).map fun x => (x.1, g x.2) := by
  induction l with
  | nil => rfl
  | cons m rest ih =>
    simp only [List.map_cons, ownPropertyOrder, ih]
    exact insertOwn_map g m (ownPropertyOrder rest)

theorem mem_insertOwn {α : Type} (x m : String × α) (l : List (String × α)) :
    x ∈ insertOwn m l ↔ x = m ∨ x ∈ l := by
  induction l with
  | nil => simp [insertOwn]
  | cons e rest ih =>
    cases hme : placedBefore m e
    · simp only [insertOwn, hme, List.mem_cons, ih]
      simp only [Bool.false_eq_true, if_false, List.mem_cons, ih]
      tauto
    · simp [insertOwn, hme]

theorem mem_ownPropertyOrder {α : Type} (x : String × α) (l : List (String × α)) :
    x ∈ ownPropertyOrder l ↔ x ∈ l := by
  induction l with
  | nil => simp [ownPropertyOrder]
  | cons m rest ih => simp [ownPropertyOrder, mem_insertOwn, ih]

theorem head?_insertOwn {α : Type} (m : String × α) (l : List (String × α)) :
    (insertOwn m l).head? = some m ∨ (insertOwn m l).head? = l.head? := by
  cases l with
  | nil => exact Or.inl rfl
  | cons e rest =>
    cases hme : placedBefore m e
    · right; simp [insertOwn, hme]
    · left; simp [insertOwn, hme]

/-- Putting a member in its place keeps a list in own-property order. -/
theorem insertOwn_chain {α : Type} (m : String × α) (l : List (String × α))
    (hl : List.Chain' (fun a b => placedBefore a b = true) l) :
    List.Chain' (fun a b => placedBefore a b = true) (insertOwn m l) := by
  induction l with
  | nil => simp [insertOwn]
  | cons e rest ih =>
    cases hme : placedBefore m e
    · have hrest := ih hl.tail
      have hins : insertOwn m (e :: rest) = e :: insertOwn m rest := by simp [insertOwn, hme]
      rw [hins]
      refine List.Chain'.cons' hrest ?_
      intro y hy
      rcases head?_insertOwn m rest with h | h
      · rw [h] at hy
        simp only [Option.mem_def, Option.some.injEq] at hy
        rw [← hy]
        exact placedBefore_of_not m e hme
      · rw [h] at hy
        exact hl.rel_head? hy
    · have hins : insertOwn m (e :: rest) = m :: e :: rest := by simp [insertOwn, hme]
      rw [hins]
      exact List.Chain'.cons hme hl

theorem ownPropertyOrder_chain {α : Type} (l : List (String × α)) :
    List.Chain' (fun a b => placedBefore a b = true) (ownPropertyOrder l) := by
  induction l with
  | nil => simp [ownPropertyOrder]
  | cons m rest ih => exact insertOwn_chain m _ ih

/-- A list in own-property order is left as it is. -/
theorem ownPropertyOrder_of_chain {α : Type} (l : List (String × α))
    (hl : List.Chain' (fun a b => placedBefore a b = true) l) : ownPropertyOrder l = l := by
  induction l with
  | nil => rfl
  | cons m rest ih =>
    rw [ownPropertyOrder, ih hl.tail]
    cases rest with
    | nil => rfl
    | cons e rest2 =>
      have hme : placedBefore m e = true := (List.chain'_cons.mp hl).1
      simp [insertOwn, hme]

/-- Enumerating the members twice is enumerating them once. -/
theorem ownPropertyOrder_idem {α : Type} (l : List (String × α)) :
    ownPropertyOrder (ownPropertyOrder l) = ownPropertyOrder l :=
  ownPropertyOrder_of_chain _ (ownPropertyOrder_chain l)

/-! ### Values -/

theorem joinComma_cons_append (s : List Char) (ss : List (List Char)) (t : List Char) :
    joinComma (s :: ss) ++ t =
      s ++ (match ss with
        | [] => t
        | _ :: _ => ',' :: (joinComma ss ++ t)) := by
  cases ss with
  | nil => simp [joinComma]
  | cons s2 ss => simp [joinComma]

theorem serializeJSONProperty_of_ne_undefined (v : JsVal) (h : v ≠ JsVal.undefined) :
    serializeJSONProperty v = some (ser v) := by
  cases v with
  | undefined => exact absurd rfl h
  | bool b => cases b <;> rfl
  | _ => rfl

theorem serializeJSONProperty_of_isJson (v : JsVal) (h : v.isJson = true) :
    serializeJSONProperty v = some (ser v) :=
  serializeJSONProperty_of_ne_undefined v (by rintro rfl; simp [JsVal.isJson] at h)

theorem serializeJSONProperty_of_plain (v : JsVal) (h : v.plain = true) :
    serializeJSONProperty v = some (ser v) :=
  serializeJSONProperty_of_ne_undefined v (by rintro rfl; simp [JsVal.plain] at h)

theorem isJsonFields_mem (kvs : List (String × JsVal)) (h : JsVal.isJsonFields kvs = true)
    (m : String × JsVal) (hm : m ∈ kvs) : m.2.isJson = true := by
  induction kvs with
  | nil => cases hm
  | cons x rest ih =>
    obtain ⟨k, v⟩ := x
    simp only [JsVal.isJsonFields, Bool.and_eq_true] at h
    rcases List.mem_cons.mp hm with e | e
    · rw [e]; exact h.1
    · exact ih h.2 e

theorem plainFields_mem (kvs : List (String × JsVal)) (h : JsVal.plainFields kvs = true)
    (m : String × JsVal) (hm : m ∈ kvs) : m.2.plain = true := by
  induction kvs with
  | nil => cases hm
  | cons x rest ih =>
    obtain ⟨k, v⟩ := x
    simp only [JsVal.plainFields, Bool.and_eq_true] at h
    rcases List.mem_cons.mp hm with e | e
    · rw [e]; exact h.1
    · exact ih h.2 e

theorem plainFields_of_mem (kvs : List (String × JsVal))
    (h : ∀ m ∈ kvs, m.2.plain = true) : JsVal.plainFields kvs = true := by
  induction kvs with
  | nil => rfl
  | cons x rest ih =>
    obtain ⟨k, v⟩ := x
    simp only [JsVal.plainFields, Bool.and_eq_true]
    exact ⟨h (k, v) (List.mem_cons_self _ _), ih fun m hm => h m (List.mem_cons_of_mem _ hm)⟩

theorem plainList_mem (xs : List JsVal) (h : JsVal.plainList xs = true)
    (x : JsVal) (hx : x ∈ xs) : x.plain = true := by
  induction xs with
  | nil => cases hx
  | cons y rest ih =>
    simp only [JsVal.plainList, Bool.and_eq_true] at h
    rcases List.mem_cons.mp hx with e | e
    · rw [e]; exact h.1
    · exact ih h.2 e

theorem plainList_of_mem (xs : List JsVal)
    (h : ∀ x ∈ xs, x.plain = true) : JsVal.plainList xs = true := by
  induction xs with
  | nil => rfl
  | cons y rest ih =>
    simp only [JsVal.plainList, Bool.and_eq_true]
    exact ⟨h y (List.mem_cons_self _ _), ih fun x hx => h x (List.mem_cons_of_mem _ hx)⟩

theorem serializeElements_eq_map (xs : List JsVal) : serializeElements xs = xs.map ser := by
  induction xs with
  | nil => rfl
  | cons x rest ih => simp [serializeElements, ser, ih]

/-- When no member value is `undefined`, every member is printed. -/
theorem serializeMembers_eq_map (kvs : List (String × JsVal))
    (h : ∀ m ∈ kvs, serializeJSONProperty m.2 = some (ser m.2)) :
    serializeMembers kvs = kvs.map fun m => (m.1, ser m.2) := by
  induction kvs with
  | nil => rfl
  | cons x rest ih =>
    obtain ⟨k, v⟩ := x
    have hv : serializeJSONProperty v = some (ser v) := h (k, v) (List.mem_cons_self _ _)
    rw [serializeMembers, hv]
    simp only [List.map_cons]
    rw [ih fun m hm => h m (List.mem_cons_of_mem _ hm)]

/-- The print of an object none of whose member values is `undefined`: the
texts of its members in own-property order. -/
theorem ser_obj (kvs : List (String × JsVal))
    (h : ∀ m ∈ kvs, serializeJSONProperty m.2 = some (ser m.2)) :
    ser (obj kvs) = lbrace :: (joinComma (memberTexts (ownPropertyOrder kvs)) ++ [rbrace]) := by
  have hprint : serializeJSONProperty (obj kvs) =
      some (lbrace :: (joinComma (memberTexts (ownPropertyOrder kvs)) ++ [rbrace])) := by
    rw [serializeJSONProperty, serializeMembers_eq_map kvs h, ownPropertyOrder_map ser kvs,
      List.map_map]
    rfl
  rw [ser, hprint]
  rfl

theorem memberTexts_cons (k : String) (v : JsVal) (rest : List (String × JsVal)) :
    memberTexts ((k, v) :: rest) = (quoteJSONString k ++ ':' :: ser v) :: memberTexts rest :=
  rfl

/-- The first character of a serialization tells the kind of the value. -/
theorem headKind_ser (v : JsVal) (h : v.isJson = true) (r : List Char) :
    headKind (ser v ++ r) = kind v := by
  cases v with
  | undefined => simp [JsVal.isJson] at h
  | infinity b => simp [JsVal.isJson] at h
  | null => rfl
  | bool b => cases b <;> rfl
  | num n =>
    cases n with
    | ofNat a =>
      obtain ⟨c, rest, hc, hdig⟩ := toDigits_head a
      have hn : c ≠ 'n' := by rintro rfl; exact absurd hdig (by decide)
      have ht : c ≠ 't' := by rintro rfl; exact absurd hdig (by decide)
      have hf : c ≠ 'f' := by rintro rfl; exact absurd hdig (by decide)
      simp [ser, serializeJSONProperty, numberToString, hc, headKind, hn, ht, hf, hdig, kind]
    | negSucc a => rfl
  | str s => rfl
  | arr xs => rfl
  | obj kvs => rfl

theorem kind_ne_zero (v : JsVal) : kind v ≠ 0 := by
  cases v with
  | bool b => cases b <;> simp [kind]
  | _ => simp [kind]

theorem noDigitHead_comma (t : List Char) : noDigitHead (',' :: t) := by
  simp only [noDigitHead]; decide

theorem noDigitHead_bracket (t : List Char) : noDigitHead (']' :: t) := by
  simp only [noDigitHead]; decide

theorem noDigitHead_brace (t : List Char) : noDigitHead (rbrace :: t) := by
  simp only [noDigitHead]; decide

/-- The elements of a serialized array can be read back, given that each
element can. -/
theorem elements_cancel_of (xs : List JsVal)
    (hrec : ∀ x ∈ xs, ∀ (w : JsVal) (r1 r2 : List Char), x.isJson = true → w.isJson = true →
      noDigitHead r1 → noDigitHead r2 → ser x ++ r1 = ser w ++ r2 → x = w ∧ r1 = r2)
    (ys : List JsVal) (r1 r2 : List Char)
    (hx : JsVal.isJsonList xs = true) (hy : JsVal.isJsonList ys = true)
    (heq : joinComma (serializeElements xs) ++ ']' :: r1 =
      joinComma (serializeElements ys) ++ ']' :: r2) : xs = ys ∧ r1 = r2 := by
  induction xs generalizing ys with
  | nil =>
    cases ys with
    | nil => exact ⟨rfl, by simpa [serializeElements, joinComma] using heq⟩
    | cons y ys =>
      exfalso
      simp only [JsVal.isJsonList, Bool.and_eq_true] at hy
      have hk := congrArg headKind heq
      rw [serializeElements, serializeElements, joinComma_cons_append] at hk
      change headKind (']' :: r1) = headKind (ser y ++ _) at hk
      rw [headKind_ser y hy.1] at hk
      exact kind_ne_zero y hk.symm
  | cons x xs ih =>
    have hx0 := hrec x (List.mem_cons_self _ _)
    have ih2 := ih (fun z hz => hrec z (List.mem_cons_of_mem _ hz))
    cases ys with
    | nil =>
      exfalso
      simp only [JsVal.isJsonList, Bool.and_eq_true] at hx
      have hk := congrArg headKind heq
      rw [serializeElements, serializeElements, joinComma_cons_append] at hk
      change headKind (ser x ++ _) = headKind (']' :: r2) at hk
      rw [headKind_ser x hx.1] at hk
      exact kind_ne_zero x hk
    | cons y ys =>
      simp only [JsVal.isJsonList, Bool.and_eq_true] at hx hy
      rw [serializeElements, serializeElements, joinComma_cons_append,
        joinComma_cons_append] at heq
      change ser x ++ _ = ser y ++ _ at heq
      cases xs with
      | nil =>
        cases ys with
        | nil =>
          obtain ⟨hxy, hr⟩ := hx0 y _ _ hx.1 hy.1 (noDigitHead_bracket r1)
            (noDigitHead_bracket r2) heq
          exact ⟨by rw [hxy], by simpa using hr⟩
        | cons y2 ys =>
          exfalso
          obtain ⟨_, hr⟩ := hx0 y _ _ hx.1 hy.1 (noDigitHead_bracket r1)
            (noDigitHead_comma _) heq
          simp only [List.cons.injEq] at hr
          exact absurd hr.1 (by decide)
      | cons x2 xs =>
        cases ys with
        | nil =>
          exfalso
          obtain ⟨_, hr⟩ := hx0 y _ _ hx.1 hy.1 (noDigitHead_comma _)
            (noDigitHead_bracket r2) heq
          simp only [List.cons.injEq] at hr
          exact absurd hr.1 (by decide)
        | cons y2 ys =>
          obtain ⟨hxy, hr⟩ := hx0 y _ _ hx.1 hy.1 (noDigitHead_comma _)
            (noDigitHead_comma _) heq
          simp only [List.cons.injEq, true_and] at hr
          obtain ⟨htl, hr2⟩ := ih2 (y2 :: ys) hx.2 hy.2 hr
          exact ⟨by rw [hxy, htl], hr2⟩

/-- The members of a serialized object can be read back, given that each
member value can. -/
theorem members_cancel_of (xs : List (String × JsVal))
    (hrec : ∀ x ∈ xs, ∀ (w : JsVal) (r1 r2 : List Char), x.2.isJson = true → w.isJson = true →
      noDigitHead r1 → noDigitHead r2 → ser x.2 ++ r1 = ser w ++ r2 → x.2 = w ∧ r1 = r2)
    (ys : List (String × JsVal)) (r1 r2 : List Char)
    (hx : JsVal.isJsonFields xs = true) (hy : JsVal.isJsonFields ys = true)
    (heq : joinComma (memberTexts xs) ++ rbrace :: r1 =
      joinComma (memberTexts ys) ++ rbrace :: r2) : xs = ys ∧ r1 = r2 := by
  induction xs generalizing ys with
  | nil =>
    cases ys with
    | nil => exact ⟨rfl, by simpa [memberTexts, joinComma] using heq⟩
    | cons y ys =>
      exfalso
      obtain ⟨k, v⟩ := y
      have hk := congrArg headKind heq
      rw [memberTexts_cons k v ys, joinComma_cons_append] at hk
      exact absurd hk (by
        simp [memberTexts, joinComma, headKind, quoteJSONString, rbrace, dquote])
  | cons x xs ih =>
    have hx0 := hrec x (List.mem_cons_self _ _)
    have ih2 := ih (fun z hz => hrec z (List.mem_cons_of_mem _ hz))
    obtain ⟨k1, v1⟩ := x
    cases ys with
    | nil =>
      exfalso
      have hk := congrArg headKind heq
      rw [memberTexts_cons k1 v1 xs, joinComma_cons_append] at hk
      exact absurd hk (by
        simp [memberTexts, joinComma, headKind, quoteJSONString, rbrace, dquote])
    | cons y ys =>
      obtain ⟨k2, v2⟩ := y
      simp only [JsVal.isJsonFields, Bool.and_eq_true] at hx hy
      rw [memberTexts_cons k1 v1 xs, memberTexts_cons k2 v2 ys,
        joinComma_cons_append, joinComma_cons_append, List.append_assoc, List.append_assoc] at heq
      obtain ⟨hk, hrest⟩ := quoteJSONString_cancel k1 k2 _ _ heq
      simp only [List.cons_append, List.cons.injEq, true_and] at hrest
      cases xs with
      | nil =>
        cases ys with
        | nil =>
          obtain ⟨hv, hr⟩ := hx0 v2 _ _ hx.1 hy.1 (noDigitHead_brace r1)
            (noDigitHead_brace r2) hrest
          simp only at hv
          exact ⟨by rw [hk, hv], by simpa using hr⟩
        | cons y2 ys =>
          exfalso
          obtain ⟨k3, v3⟩ := y2
          rw [memberTexts_cons k3 v3 ys] at hrest
          obtain ⟨_, hr⟩ := hx0 v2 _ _ hx.1 hy.1 (noDigitHead_brace r1)
            (noDigitHead_comma _) hrest
          simp only [List.cons.injEq] at hr
          exact absurd hr.1 (by decide)
      | cons x2 xs =>
        obtain ⟨k3, v3⟩ := x2
        cases ys with
        | nil =>
          exfalso
          rw [memberTexts_cons k3 v3 xs] at hrest
          obtain ⟨_, hr⟩ := hx0 v2 _ _ hx.1 hy.1 (noDigitHead_comma _)
            (noDigitHead_brace r2) hrest
          simp only [List.cons.injEq] at hr
          exact absurd hr.1 (by decide)
        | cons y2 ys =>
          obtain ⟨k4, v4⟩ := y2
          have hrest2 := hrest
          rw [memberTexts_cons k3 v3 xs, memberTexts_cons k4 v4 ys] at hrest2
          obtain ⟨hv, hr⟩ := hx0 v2 _ _ hx.1 hy.1 (noDigitHead_comma _)
            (noDigitHead_comma _) hrest2
          simp only [List.cons.injEq, true_and] at hr
          rw [← memberTexts_cons k3 v3 xs, ← memberTexts_cons k4 v4 ys] at hr
          obtain ⟨htl, hr2⟩ := ih2 ((k4, v4) :: ys) hx.2 hy.2 hr
          simp only at hv
          exact ⟨by rw [hk, hv, htl], hr2⟩

theorem sizeOf_member_lt (kvs : List (String × JsVal)) (x : String × JsVal) (hx : x ∈ kvs) :
    sizeOf x.2 < sizeOf kvs := by
  have h1 := List.sizeOf_lt_of_mem hx
  obtain ⟨k, v⟩ := x
  simp only [Prod.mk.sizeOf_spec] at h1
  simp only
  omega

/-- The print of an object that is a plain JSON value as the program holds
it: the texts of its members in the order listed. -/
theorem ser_obj_of_isJson (kvs : List (String × JsVal)) (h : (obj kvs).isJson = true) :
    ser (obj kvs) = lbrace :: (joinComma (memberTexts kvs) ++ [rbrace]) := by
  simp only [JsVal.isJson, Bool.and_eq_true, decide_eq_true_eq] at h
  rw [ser_obj kvs fun m hm => serializeJSONProperty_of_isJson m.2 (isJsonFields_mem kvs h.2 m hm),
    h.1]

/-- A serialized JSON value can be read back off the front of a string: two
JSON values whose serializations, each followed by something that does not
start with a digit, give the same string are equal, and so is what follows. -/
theorem ser_cancel_bounded (n : Nat) :
    ∀ (v : JsVal), sizeOf v ≤ n → ∀ (w : JsVal) (r1 r2 : List Char), v.isJson = true →
      w.isJson = true → noDigitHead r1 → noDigitHead r2 → ser v ++ r1 = ser w ++ r2 →
      v = w ∧ r1 = r2 := by
  induction n with
  | zero =>
    intro v hsize
    exfalso
    cases v <;> simp at hsize
  | succ n ih =>
    intro v hsize w r1 r2 hv hw h1 h2 heq
    have hk := congrArg headKind heq
    rw [headKind_ser v hv, headKind_ser w hw] at hk
    cases v with
    | undefined => simp [JsVal.isJson] at hv
    | infinity a => simp [JsVal.isJson] at hv
    | null =>
      cases w with
      | null => exact ⟨rfl, by simpa [ser, serializeJSONProperty] using heq⟩
      | bool b => cases b <;> simp [kind] at hk
      | undefined => simp [JsVal.isJson] at hw
      | infinity b => simp [JsVal.isJson] at hw
      | _ => simp [kind] at hk
    | bool a =>
      cases w with
      | bool b =>
        cases a <;> cases b <;> simp [kind] at hk <;>
          exact ⟨rfl, by simpa [ser, serializeJSONProperty] using heq⟩
      | undefined => simp [JsVal.isJson] at hw
      | _ => cases a <;> simp [kind] at hk
    | num n =>
      cases w with
      | num m =>
        obtain ⟨hnm, hr⟩ := numberToString_cancel n m r1 r2 h1 h2
          (by simpa [ser, serializeJSONProperty] using heq)
        exact ⟨by rw [hnm], hr⟩
      | bool b => cases b <;> simp [kind] at hk
      | undefined => simp [JsVal.isJson] at hw
      | _ => simp [kind] at hk
    | str s =>
      cases w with
      | str t =>
        obtain ⟨hst, hr⟩ := quoteJSONString_cancel s t r1 r2
          (by simpa [ser, serializeJSONProperty] using heq)
        exact ⟨by rw [hst], hr⟩
      | bool b => cases b <;> simp [kind] at hk
      | undefined => simp [JsVal.isJson] at hw
      | _ => simp [kind] at hk
    | arr xs =>
      cases w with
      | arr ys =>
        have heq2 : joinComma (serializeElements xs) ++ ']' :: r1 =
            joinComma (serializeElements ys) ++ ']' :: r2 := by
          simpa [ser, serializeJSONProperty] using heq
        have hrec : ∀ x ∈ xs, ∀ (w : JsVal) (r1 r2 : List Char), x.isJson = true →
            w.isJson = true → noDigitHead r1 → noDigitHead r2 → ser x ++ r1 = ser w ++ r2 →
            x = w ∧ r1 = r2 := by
          intro x hxmem
          have hlt := List.sizeOf_lt_of_mem hxmem
          simp only [JsVal.arr.sizeOf_spec] at hsize
          exact ih x (by omega)
        obtain ⟨hxy, hr⟩ := elements_cancel_of xs hrec ys r1 r2
          (by simpa [JsVal.isJson] using hv) (by simpa [JsVal.isJson] using hw) heq2
        exact ⟨by rw [hxy], hr⟩
      | bool b => cases b <;> simp [kind] at hk
      | undefined => simp [JsVal.isJson] at hw
      | _ => simp [kind] at hk
    | obj xs =>
      cases w with
      | obj ys =>
        have heq2 : joinComma (memberTexts xs) ++ rbrace :: r1 =
            joinComma (memberTexts ys) ++ rbrace :: r2 := by
          rw [ser_obj_of_isJson xs hv, ser_obj_of_isJson ys hw] at heq
          simpa using heq
        have hrec : ∀ x ∈ xs, ∀ (w : JsVal) (r1 r2 : List Char), x.2.isJson = true →
            w.isJson = true → noDigitHead r1 → noDigitHead r2 → ser x.2 ++ r1 = ser w ++ r2 →
            x.2 = w ∧ r1 = r2 := by
          intro x hxmem
          have hlt := sizeOf_member_lt xs x hxmem
          simp only [JsVal.obj.sizeOf_spec] at hsize
          exact ih x.2 (by omega)
        have hvf : JsVal.isJsonFields xs = true := by
          simp only [JsVal.isJson, Bool.and_eq_true] at hv
          exact hv.2
        have hwf : JsVal.isJsonFields ys = true := by
          simp only [JsVal.isJson, Bool.and_eq_true] at hw
          exact hw.2
        obtain ⟨hxy, hr⟩ := members_cancel_of xs hrec ys r1 r2 hvf hwf heq2
        exact ⟨by rw [hxy], hr⟩
      | bool b => cases b <;> simp [kind] at hk
      | undefined => simp [JsVal.isJson] at hw
      | _ => simp [kind] at hk

/-- `JSON.stringify` is injective on plain JSON values as the program holds
them. -/
theorem serializeJSONProperty_injective (v w : JsVal) (hv : v.isJson = true)
    (hw : w.isJson = true) (heq : serializeJSONProperty v = serializeJSONProperty w) :
    v = w := by
  rw [serializeJSONProperty_of_isJson v hv, serializeJSONProperty_of_isJson w hw] at heq
  simp only [Option.some.injEq] at heq
  exact (ser_cancel_bounded (sizeOf v) v (Nat.le_refl _) w [] [] hv hw trivial trivial
    (by rw [heq])).1

/-! ## The cache key -/

theorem JSON_stringify_of_isJson (v : JsVal) (h : v.isJson = true) :
    JSON_stringify v = some (String.mk (ser v)) := by
  simp [JSON_stringify, serializeJSONProperty_of_isJson v h]

/-- The key of a request whose serialized value is a JSON value `v`. -/
theorem cacheKey_eq_iff (path : String) (v w : JsVal) (hv : v.isJson = true)
    (hw : w.isJson = true) :
    path ++ ":" ++ templateValue (JSON_stringify v) =
      path ++ ":" ++ templateValue (JSON_stringify w) ↔ v = w := by
  constructor
  · intro h
    rw [JSON_stringify_of_isJson v hv, JSON_stringify_of_isJson w hw] at h
    have hdata := congrArg String.data h
    simp only [templateValue, Option.getD_some, String.data_append, List.append_cancel_left_eq]
      at hdata
    apply serializeJSONProperty_injective v w hv hw
    rw [serializeJSONProperty_of_isJson v hv, serializeJSONProperty_of_isJson w hw, hdata]
  · intro h
    rw [h]

/-- C10, the counterexample. Two searches on the same path whose bodies differ
in the filter value, the number that `JSON.parse` makes of `1e999` in one and
`null` in the other. The handler reads a search text off the first and none
off the second, yet `generateCacheKey` gives them the same key, because
`JSON.stringify` prints a number that is not finite as `null`. -/
theorem generateCacheKey_infinity_collides_with_null :
    searchInfinity.path = searchNull.path ∧
    searchInfinity.body.truthy = true ∧ searchNull.body.truthy = true ∧
    searchInfinity.body ≠ searchNull.body ∧
    searchQueryOf searchInfinity.body = some (infinity false) ∧
    searchQueryOf searchNull.body = some (str "") ∧
    generateCacheKey searchInfinity = generateCacheKey searchNull ∧
    generateCacheKey searchInfinity =
      "/search:\x7b\"filters\":[\x7b\"criteria\":[\x7b\"filterType\":10,\"value\":null\x7d]\x7d]\x7d" := by
  decide

/-- C10, as amended. `generateCacheKey` is deterministic, and injective on
(path, body) for bodies that are plain JSON values. For all requests `r1`,
`r2` with the same path: if both carry a body (a truthy `req.body`), equal
bodies give equal keys, and bodies that are different plain JSON values as the
program holds them (every number finite and a safe integer), so in particular
such bodies that differ in a filter value, give different keys; if neither
carries a body, query parameters that are different plain JSON values give
different keys. -/
theorem generateCacheKey_deterministic_injective (r1 r2 : Request)
    (hpath : r1.path = r2.path) :
    (r1.body.truthy = true → r2.body.truthy = true →
      (r1.body = r2.body → generateCacheKey r1 = generateCacheKey r2) ∧
      (r1.body.isJson = true → r2.body.isJson = true → r1.body ≠ r2.body →
        generateCacheKey r1 ≠ generateCacheKey r2)) ∧
    (r1.body.truthy = false → r2.body.truthy = false →
      r1.query.isJson = true → r2.query.isJson = true → r1.query ≠ r2.query →
        generateCacheKey r1 ≠ generateCacheKey r2) := by
  refine ⟨fun h1 h2 => ⟨fun hbody => ?_, fun hj1 hj2 hne hkey => ?_⟩,
    fun h1 h2 hj1 hj2 hne hkey => ?_⟩
  · simp only [generateCacheKey, orElse, h1, h2, if_true, hpath, hbody]
  · simp only [generateCacheKey, orElse, h1, h2, if_true, hpath] at hkey
    exact hne ((cacheKey_eq_iff r2.path r1.body r2.body hj1 hj2).mp hkey)
  · simp only [generateCacheKey, orElse, h1, h2, hpath] at hkey
    exact hne ((cacheKey_eq_iff r2.path r1.query r2.query hj1 hj2).mp (by simpa using hkey))

/-- Witness of C10 as amended: a search for `python` and a search for `java`
have the same path and different keys, a search has the same key as itself,
and two requests without a body whose query parameters differ have different
keys. -/
theorem generateCacheKey_deterministic_injective_witness :
    (searchPython.path = searchJava.path ∧ (queryOnly "a").path = (queryOnly "b").path) ∧
    generateCacheKey searchPython = generateCacheKey searchPython ∧
    generateCacheKey searchPython ≠ generateCacheKey searchJava ∧
    generateCacheKey (queryOnly "a") ≠ generateCacheKey (queryOnly "b") :=
  ⟨⟨rfl, rfl⟩,
    ((generateCacheKey_deterministic_injective searchPython searchPython rfl).1
      (by decide) (by decide)).1 rfl,
    ((generateCacheKey_deterministic_injective searchPython searchJava rfl).1
      (by decide) (by decide)).2 (by decide) (by decide) (by decide),
    (generateCacheKey_deterministic_injective (queryOnly "a") (queryOnly "b") rfl).2
      (by decide) (by decide) (by decide) (by decide) (by decide)⟩

/-- The keys of the witness, computed. -/
theorem generateCacheKey_examples :
    generateCacheKey searchPython =
      "/search:\x7b\"filters\":[\x7b\"criteria\":[\x7b\"filterType\":10,\"value\":\"python\"\x7d]\x7d]\x7d" ∧
    generateCacheKey searchJava =
      "/search:\x7b\"filters\":[\x7b\"criteria\":[\x7b\"filterType\":10,\"value\":\"java\"\x7d]\x7d]\x7d" ∧
    generateCacheKey (queryOnly "a") = "/search:\x7b\"q\":\"a\"\x7d" := by
  decide

/-- What the collision of the counterexample does to the route: on an empty
cache the search with the value `null` is answered 400; once the search with
the value `1e999` has been answered and cached, the same request is served
that cached 200 reply. -/
theorem search_null_served_cached_reply :
    (postSearch specNormalizer bothRegistries [] searchNull).reply =
      Reply.json 400 (messageBody "Missing search query") ∧
    (postSearch specNormalizer bothRegistries [] searchInfinity).reply.status? = some 200 ∧
    (postSearch specNormalizer bothRegistries
      (postSearch specNormalizer bothRegistries [] searchInfinity).cache searchNull).reply =
      (postSearch specNormalizer bothRegistries [] searchInfinity).reply := by
  decide

/-- The query parameters are read only when `req.body` is falsy. The empty
object is truthy: two requests with the body `{}` and different query
parameters get the same key. -/
theorem generateCacheKey_empty_body_ignores_query :
    (emptyBodyWithQuery "a").query ≠ (emptyBodyWithQuery "b").query ∧
    generateCacheKey (emptyBodyWithQuery "a") = "/search:\x7b\x7d" ∧
    generateCacheKey (emptyBodyWithQuery "b") = "/search:\x7b\x7d" := by
  decide

/-! ## Key order and the cache key -/

theorem keyBefore_asymm (a b : List Char) (h : keyBefore a b = true) : keyBefore b a = false := by
  induction a generalizing b with
  | nil =>
    cases b with
    | nil => rfl
    | cons y bs => rfl
  | cons x as ih =>
    cases b with
    | nil => simp [keyBefore] at h
    | cons y bs =>
      simp only [keyBefore] at h ⊢
      by_cases hxy : x.toNat < y.toNat
      · have hyx : ¬ y.toNat < x.toNat := by omega
        simp [hxy, hyx]
      · by_cases hyx : y.toNat < x.toNat
        · simp [hxy, hyx] at h
        · simp only [hxy, hyx, if_false] at h ⊢
          exact ih bs h

theorem keyBefore_total (a b : List Char) (h : a ≠ b) :
    keyBefore a b = true ∨ keyBefore b a = true := by
  induction a generalizing b with
  | nil =>
    cases b with
    | nil => exact absurd rfl h
    | cons y bs => exact Or.inl rfl
  | cons x as ih =>
    cases b with
    | nil => exact Or.inr rfl
    | cons y bs =>
      simp only [keyBefore]
      by_cases hxy : x.toNat < y.toNat
      · simp [hxy]
      · by_cases hyx : y.toNat < x.toNat
        · simp [hyx]
        · have hnat : x.toNat = y.toNat := by omega
          have hchar : x = y := by
            rw [char_eq_of_toNat x y.toNat hnat, Char.ofNat_toNat]
          have htail : as ≠ bs := fun e => h (by rw [hchar, e])
          simpa [hxy, hyx] using ih bs htail

/-- If `b` is not after `c` and `c` is before `a`, then `b` is before `a`. -/
theorem keyBefore_of_not_before (c a b : List Char) (hcb : keyBefore c b = false)
    (hca : keyBefore c a = true) : keyBefore b a = true := by
  induction c generalizing a b with
  | nil =>
    cases b with
    | nil => exact hca
    | cons y bs => simp [keyBefore] at hcb
  | cons z cs ih =>
    cases a with
    | nil => simp [keyBefore] at hca
    | cons x as =>
      cases b with
      | nil => rfl
      | cons y bs =>
        simp only [keyBefore] at hcb hca ⊢
        by_cases hzy : z.toNat < y.toNat
        · simp [hzy] at hcb
        · by_cases hzx : z.toNat < x.toNat
          · have hyx : y.toNat < x.toNat := by omega
            simp [hyx]
          · by_cases hxz : x.toNat < z.toNat
            · simp [hzx, hxz] at hca
            · simp only [hzx, hxz, if_false] at hca
              by_cases hyz : y.toNat < z.toNat
              · have hyx : y.toNat < x.toNat := by omega
                simp [hyx]
              · simp only [hzy, hyz, if_false] at hcb
                have hyx : ¬ y.toNat < x.toNat := by omega
                have hxy : ¬ x.toNat < y.toNat := by omega
                simp only [hyx, hxy, if_false]
                exact ih as bs hcb hca

/-- Two members with different keys can be put in place in either order. -/
theorem insertMember_comm (a b : String × JsVal) (hkeys : a.1 ≠ b.1)
    (members : List (String × JsVal)) :
    insertMember a (insertMember b members) = insertMember b (insertMember a members) := by
  have hdata : a.1.data ≠ b.1.data := fun e => hkeys (String.ext e)
  induction members with
  | nil =>
    simp only [insertMember]
    rcases keyBefore_total a.1.data b.1.data hdata with hab | hba
    · simp [hab, keyBefore_asymm _ _ hab]
    · simp [hba, keyBefore_asymm _ _ hba]
  | cons c rest ih =>
    cases hca : keyBefore c.1.data a.1.data <;> cases hcb : keyBefore c.1.data b.1.data
    · rcases keyBefore_total a.1.data b.1.data hdata with hab | hba
      · simp [insertMember, hca, hcb, hab, keyBefore_asymm _ _ hab]
      · simp [insertMember, hca, hcb, hba, keyBefore_asymm _ _ hba]
    · have hab := keyBefore_of_not_before c.1.data b.1.data a.1.data hca hcb
      simp [insertMember, hca, hcb, hab]
    · have hba := keyBefore_of_not_before c.1.data a.1.data b.1.data hcb hca
      simp [insertMember, hca, hcb, hba]
    · simp [insertMember, hca, hcb, ih]

/-- The canonical form of the members of an object does not depend on the
order in which its keys, all different, were inserted. -/
theorem canonicalizeMembers_perm (kvs kvs2 : List (String × JsVal)) (hperm : kvs.Perm kvs2)
    (hkeys : (kvs.map Prod.fst).Nodup) : canonicalizeMembers kvs = canonicalizeMembers kvs2 := by
  induction hperm with
  | nil => rfl
  | cons x _ ih =>
    obtain ⟨k, v⟩ := x
    simp only [List.map_cons, List.nodup_cons] at hkeys
    simp only [canonicalizeMembers, ih hkeys.2]
  | swap x y l =>
    obtain ⟨k1, v1⟩ := x
    obtain ⟨k2, v2⟩ := y
    simp only [List.map_cons, List.nodup_cons, List.mem_cons, not_or] at hkeys
    simp only [canonicalizeMembers]
    exact insertMember_comm _ _ (fun e => hkeys.1.1 e) _
  | trans h1 _ ih1 ih2 =>
    rw [ih1 hkeys]
    exact ih2 ((h1.map Prod.fst).nodup_iff.mp hkeys)

/-- Objects with the same members, inserted in a different order, are
logically identical. -/
theorem logicallyIdentical_of_reordered_keys (kvs kvs2 : List (String × JsVal))
    (hperm : kvs.Perm kvs2) (hkeys : (kvs.map Prod.fst).Nodup) :
    logicallyIdentical (obj kvs) (obj kvs2) := by
  simp only [logicallyIdentical, canonicalize, canonicalizeMembers_perm kvs kvs2 hperm hkeys]

/-- Logical identity tells different requests apart: a search for `python`
and a search for `java` are not logically identical. -/
theorem logicallyIdentical_distinguishes :
    ¬ logicallyIdentical searchPython.body searchJava.body := by
  decide

/-- C11, the counterexample. Two searches for `python` on the same path whose
bodies are logically identical, the criterion written once as
`{filterType, value}` and once as `{value, filterType}`: the handler reads the
same search text off both, yet `generateCacheKey` gives them different keys,
because `JSON.stringify` prints keys that are not array indices in insertion
order. -/
theorem generateCacheKey_key_order_changes_key :
    searchPython.path = searchPythonReordered.path ∧
    logicallyIdentical searchPython.body searchPythonReordered.body ∧
    searchQueryOf searchPython.body = searchQueryOf searchPythonReordered.body ∧
    generateCacheKey searchPython ≠ generateCacheKey searchPythonReordered ∧
    generateCacheKey searchPythonReordered =
      "/search:\x7b\"filters\":[\x7b\"criteria\":[\x7b\"value\":\"python\",\"filterType\":10\x7d]\x7d]\x7d" := by
  decide

theorem enumeratedElements_eq_map (xs : List JsVal) :
    enumeratedElements xs = xs.map enumerated := by
  induction xs with
  | nil => rfl
  | cons x rest ih => simp [enumeratedElements, ih]

theorem enumeratedMembers_eq_map (kvs : List (String × JsVal)) :
    enumeratedMembers kvs = kvs.map fun m => (m.1, enumerated m.2) := by
  induction kvs with
  | nil => rfl
  | cons x rest ih =>
    obtain ⟨k, v⟩ := x
    simp [enumeratedMembers, ih]

theorem ser_arr (xs : List JsVal) :
    ser (arr xs) = '[' :: (joinComma (xs.map ser) ++ [']']) := by
  have hprint : serializeJSONProperty (arr xs) =
      some ('[' :: (joinComma (xs.map ser) ++ [']'])) := by
    rw [serializeJSONProperty, serializeElements_eq_map]
  rw [ser, hprint]
  rfl

/-- Putting the members of every object in own-property order does not change
what `JSON.stringify` prints, and leaves a plain JSON document plain. -/
theorem ser_enumerated_bounded (n : Nat) :
    ∀ (v : JsVal), sizeOf v ≤ n → v.plain = true →
      ser (enumerated v) = ser v ∧ (enumerated v).plain = true := by
  induction n with
  | zero =>
    intro v hsize
    exfalso
    cases v <;> simp at hsize
  | succ n ih =>
    intro v hsize hp
    cases v with
    | arr xs =>
      have hrec : ∀ x ∈ xs, ser (enumerated x) = ser x ∧ (enumerated x).plain = true := by
        intro x hx
        have hlt := List.sizeOf_lt_of_mem hx
        simp only [JsVal.arr.sizeOf_spec] at hsize
        exact ih x (by omega) (plainList_mem xs (by simpa [JsVal.plain] using hp) x hx)
      have henum : enumerated (arr xs) = arr (xs.map enumerated) := by
        rw [enumerated, enumeratedElements_eq_map]
      rw [henum]
      constructor
      · rw [ser_arr, ser_arr, List.map_map]
        have hmap : xs.map (ser ∘ enumerated) = xs.map ser :=
          List.map_congr_left fun x hx => (hrec x hx).1
        rw [hmap]
      · have hall : ∀ y ∈ xs.map enumerated, y.plain = true := by
          intro y hy
          obtain ⟨x, hx, hxy⟩ := List.mem_map.mp hy
          rw [← hxy]
          exact (hrec x hx).2
        simpa [JsVal.plain] using plainList_of_mem _ hall
    | obj kvs =>
      have hpf : JsVal.plainFields kvs = true := by simpa [JsVal.plain] using hp
      have hrec : ∀ m ∈ kvs, ser (enumerated m.2) = ser m.2 ∧ (enumerated m.2).plain = true := by
        intro m hm
        have hlt := sizeOf_member_lt kvs m hm
        simp only [JsVal.obj.sizeOf_spec] at hsize
        exact ih m.2 (by omega) (plainFields_mem kvs hpf m hm)
      have henum : enumerated (obj kvs) =
          obj (ownPropertyOrder (kvs.map fun m => (m.1, enumerated m.2))) := by
        rw [enumerated, enumeratedMembers_eq_map]
      have hall : ∀ m ∈ ownPropertyOrder (kvs.map fun m => (m.1, enumerated m.2)),
          m.2.plain = true := by
        intro m hm
        obtain ⟨m0, hm0, e⟩ := List.mem_map.mp ((mem_ownPropertyOrder m _).mp hm)
        rw [← e]
        exact (hrec m0 hm0).2
      rw [henum]
      constructor
      · rw [ser_obj _ fun m hm => serializeJSONProperty_of_plain m.2 (hall m hm),
          ser_obj kvs fun m hm => serializeJSONProperty_of_plain m.2 (plainFields_mem kvs hpf m hm),
          ownPropertyOrder_idem, ownPropertyOrder_map enumerated kvs]
        have htexts : memberTexts ((ownPropertyOrder kvs).map fun m => (m.1, enumerated m.2)) =
            memberTexts (ownPropertyOrder kvs) := by
          simp only [memberTexts, List.map_map]
          refine List.map_congr_left fun m hm => ?_
          have hm2 : m ∈ kvs := (mem_ownPropertyOrder m kvs).mp hm
          simp only [Function.comp, (hrec m hm2).1]
        rw [htexts]
      · simpa [JsVal.plain] using plainFields_of_mem _ hall
    | undefined => exact ⟨rfl, hp⟩
    | null => exact ⟨rfl, hp⟩
    | bool b => exact ⟨rfl, hp⟩
    | num k => exact ⟨rfl, hp⟩
    | infinity b => exact ⟨rfl, hp⟩
    | str s => exact ⟨rfl, hp⟩

/-- What `JSON.stringify` prints for a plain JSON document is what it prints
for the document with the members of every object in own-property order. -/
theorem ser_enumerated (v : JsVal) (h : v.plain = true) : ser (enumerated v) = ser v :=
  (ser_enumerated_bounded (sizeOf v) v (Nat.le_refl _) h).1

theorem JSON_stringify_of_plain (v : JsVal) (h : v.plain = true) :
    JSON_stringify v = some (String.mk (ser v)) := by
  simp [JSON_stringify, serializeJSONProperty_of_plain v h]

/-- C11, as amended. `generateCacheKey` serializes the body with plain
`JSON.stringify`, which enumerates the members of an object in own-property
order (keys that are array indices first, ascending, then the other keys in
insertion order) and does not sort them: for all requests with the same path
that carry plain JSON bodies, if the bodies are equal as JSON values once the
members of every object are put in own-property order, so that they differ at
most in where keys that are array indices were inserted, then the keys are
equal. -/
theorem generateCacheKey_same_own_property_order (r1 r2 : Request)
    (hpath : r1.path = r2.path)
    (h1 : r1.body.truthy = true) (h2 : r2.body.truthy = true)
    (hp1 : r1.body.plain = true) (hp2 : r2.body.plain = true)
    (henum : enumerated r1.body = enumerated r2.body) :
    generateCacheKey r1 = generateCacheKey r2 := by
  simp only [generateCacheKey, orElse, h1, h2, if_true, hpath]
  rw [JSON_stringify_of_plain r1.body hp1, JSON_stringify_of_plain r2.body hp2,
    ← ser_enumerated r1.body hp1, ← ser_enumerated r2.body hp2, henum]

/-- Witness of C11 as amended: the bodies `{"b":0,"2":0,"1":0}` and
`{"1":0,"2":0,"b":0}`, which differ on the wire and are the same once
enumerated, get the same key. -/
theorem generateCacheKey_same_own_property_order_witness :
    (indexKeysLast.path = indexKeysFirst.path ∧
      indexKeysLast.body.truthy = true ∧ indexKeysFirst.body.truthy = true ∧
      indexKeysLast.body.plain = true ∧ indexKeysFirst.body.plain = true ∧
      enumerated indexKeysLast.body = enumerated indexKeysFirst.body) ∧
    indexKeysLast.body ≠ indexKeysFirst.body ∧
    generateCacheKey indexKeysLast = generateCacheKey indexKeysFirst :=
  ⟨⟨rfl, by decide, by decide, by decide, by decide, by decide⟩, by decide,
    generateCacheKey_same_own_property_order indexKeysLast indexKeysFirst rfl
      (by decide) (by decide) (by decide) (by decide) (by decide)⟩

/-- The key of the two bodies of the witness, computed: the array indices come
first, in ascending order. -/
theorem generateCacheKey_index_keys_first :
    generateCacheKey indexKeysLast = "/search:\x7b\"1\":0,\"2\":0,\"b\":0\x7d" ∧
    generateCacheKey indexKeysFirst = "/search:\x7b\"1\":0,\"2\":0,\"b\":0\x7d" ∧
    logicallyIdentical indexKeysLast.body indexKeysFirst.body := by
  decide

end GalleryProxy
